import Mathlib

/-!
Verification of the dhall-rust typechecker core against its specification.

The development shallowly embeds the code of `src/dhall/src/typecheck.rs`
(the bidirectional typechecker), `src/dhall/src/syntax/ast/span.rs`
(source spans) and `src/dhall/src/syntax/text/printer.rs` (label
printing).  Supporting code that lives outside the provided sources
(the `dhall_core` AST, shift/substitution, the normaliser and the
persistent context) is modelled from the specification; every such
definition carries a doc comment starting with `Modelled from the spec:`.

Rust `Result`/`Option` values become explicit sum types.  Recursion that
is unbounded in Rust is embedded with an explicit fuel parameter; fuel
exhaustion is a distinguished outcome (`TcR.nofuel`) that is never
identified with an error or with a panic.  A Rust `panic!`, a failed
`unwrap()` and an arithmetic underflow of a `usize` all become the
distinguished outcome `TcR.panicked` (for the pure α-equivalence
functions, the `none` value of an `Option` result).
-/

namespace Dhall

/-- Universe constants of `dhall_core::Const`.
Modelled from the spec: one of `Type`, `Kind`, `Sort` (§3.1). -/
inductive Const where
| type
| kind
| sort
deriving DecidableEq, Repr

/-- Builtin names of `dhall_core::Builtin`.
Modelled from the spec: the fixed enumeration of primitive names of §3.1
(the numeric types, the unary type constructors, and the catalogue of
eliminators and introducers that the spec lists explicitly). -/
inductive Builtin where
| bool
| natural
| integer
| double
| text
| list
| optional
| naturalFold
| naturalBuild
| naturalIsZero
| naturalEven
| naturalOdd
| listBuild
| listFold
| listLength
| listHead
| listLast
| listIndexed
| listReverse
| optionalFold
| optionalNone
deriving DecidableEq, Repr

/-- Binary operators of `dhall_core::BinOp`.
Modelled from the spec: the per-operator list of §6.2. -/
inductive BinOp where
| boolOr
| textAppend
| naturalPlus
| boolAnd
| recursiveRecordMerge
| naturalTimes
| boolEQ
| boolNE
| recursiveRecordTypeMerge
| importAlt
| rightBiasedRecordMerge
| listAppend
| equivalence
deriving DecidableEq, Repr

/-- Labels are identifiers-as-strings (spec §3.1). -/
abbrev Label := String

/-- Named de Bruijn variable `V(label, n)` (spec §3.1). -/
structure V where
  x : Label
  n : Nat
deriving DecidableEq, Repr

/-- Variable shift `V::shift0(delta, label)`.
Modelled from the spec: the cutoff component of the variable is adjusted
when it crosses a binder with the same label (§4.1). -/
def V.shift0 (v : V) (delta : Int) (lbl : Label) : V :=
  if v.x = lbl then ⟨v.x, ((v.n : Int) + delta).toNat⟩ else v

mutual
/-- Terms (`dhall_core::ExprF` / `SubExpr`).
Modelled from the spec: the tagged variant of §3.1.  `Note` wrappers are
not represented: the typechecking entry points call `unnote()` first and
spans never affect semantics (§3.1), so `unnote` is the identity here.
The `Op` kinds that the typechecker maps to the `Unimplemented` error
without inspecting (`Merge`, `ToMap`, `Projection`, `Completion`,
`With`) are omitted; no claim mentions them.  The payload of a `Double`
literal is an opaque bit pattern (a `Nat`); no typing rule inspects it. -/
inductive Expr where
| var : V → Expr
| lam : Label → Expr → Expr → Expr
| pi : Label → Expr → Expr → Expr
| app : Expr → Expr → Expr
| let_ : Label → Option Expr → Expr → Expr → Expr
| annot : Expr → Expr → Expr
| const : Const → Expr
| builtin : Builtin → Expr
| boolLit : Bool → Expr
| naturalLit : Nat → Expr
| integerLit : Int → Expr
| doubleLit : Nat → Expr
| textLit : List (Sum String Expr) → Expr
| boolIf : Expr → Expr → Expr → Expr
| emptyListLit : Expr → Expr
| neListLit : List Expr → Expr
| oldOptionalLit : Option Expr → Expr → Expr
| someLit : Expr → Expr
| recordType : List (Label × Expr) → Expr
| recordLit : List (Label × Expr) → Expr
| unionType : List (Label × Option Expr) → Expr
| unionLit : Label → Expr → List (Label × Option Expr) → Expr
| field : Expr → Label → Expr
| binOp : BinOp → Expr → Expr → Expr
| embed : Normalized → Expr
/-- A normalised term together with its (optional) type:
`Normalized(SubExpr, Option<Type>, PhantomData)` of `src/dhall/src/expr.rs`
as used throughout `typecheck.rs`.  The `PhantomData` component is erased. -/
inductive Normalized where
| mk : Expr → Option Ty → Normalized
/-- The `Type` newtype around `TypeInternal` (`typecheck.rs`).  Named `Ty`
because `Type` is a Lean keyword. -/
inductive Ty where
| mk : TypeInternal → Ty
/-- Semantic types, `TypeInternal` of `typecheck.rs` lines 148-163. -/
inductive TypeInternal where
| const : Const → TypeInternal
| pi : List (Label × EnvItem) → Const → Label → Ty → Ty → TypeInternal
| recordType : List (Label × EnvItem) → Const → List (Label × Ty) → TypeInternal
| superType : TypeInternal
| expr : Normalized → TypeInternal
/-- Context entries, `EnvItem` of `typecheck.rs` lines 262-266. -/
inductive EnvItem where
| type : V → Ty → EnvItem
| value : Normalized → EnvItem
end

/-- The typechecking context `TypecheckContext(Context<Label, EnvItem>)`.
Modelled from the spec: a persistent stack of `(label, entry)` pairs
(§3.1, §4.3); the head of the list is the top of the stack. -/
abbrev TcCtx := List (Label × EnvItem)

/-- A term paired with its type and context:
`Typed(SubExpr, Option<Type>, TypecheckContext, PhantomData)`. -/
structure Typed where
  expr : Expr
  ty? : Option Ty
  ctx : TcCtx

/-- The `TypedOrType` sum of `typecheck.rs` lines 220-224. -/
inductive TypedOrType where
| typed : Typed → TypedOrType
| type : Ty → TypedOrType

/-- The error taxonomy `TypeMessage` of `typecheck.rs` lines 1035-1057. -/
inductive TypeMessage where
| unboundVariable : V → TypeMessage
| invalidInputType : Normalized → TypeMessage
| invalidOutputType : Normalized → TypeMessage
| notAFunction : TypedOrType → TypeMessage
| typeMismatch : TypedOrType → Normalized → TypedOrType → TypeMessage
| annotMismatch : TypedOrType → Normalized → TypeMessage
| untyped : TypeMessage
| invalidListElement : Nat → Normalized → TypedOrType → TypeMessage
| invalidListType : Normalized → TypeMessage
| invalidOptionalType : Normalized → TypeMessage
| invalidPredicate : TypedOrType → TypeMessage
| ifBranchMismatch : TypedOrType → TypedOrType → TypeMessage
| ifBranchMustBeTerm : Bool → TypedOrType → TypeMessage
| invalidFieldType : Label → TypedOrType → TypeMessage
| notARecord : Label → Normalized → TypeMessage
| missingRecordField : Label → TypedOrType → TypeMessage
| missingUnionField : Label → Normalized → TypeMessage
| binOpTypeMismatch : BinOp → TypedOrType → TypeMessage
| noDependentTypes : Normalized → Normalized → TypeMessage
| unimplemented : TypeMessage

/-- A structured type error with context (`TypeError`, lines 1060-1079). -/
structure TypeError where
  context : TcCtx
  current : Expr
  message : TypeMessage

/-- Outcomes of embedded Rust computations.  `ok`/`err` mirror
`Result<_, TypeError>`; `panicked` marks a Rust `panic!`, a failed
`unwrap()` or a `usize` underflow; `nofuel` marks exhaustion of the fuel
that makes the embedding total and is never produced by the Rust code
itself. -/
inductive TcR (α : Type) where
| ok : α → TcR α
| err : TypeError → TcR α
| panicked : TcR α
| nofuel : TcR α

/-- Monadic bind on `TcR`, propagating errors, panics and fuel
exhaustion exactly like Rust's `?` operator propagates errors. -/
def TcR.bind : TcR α → (α → TcR β) → TcR β
  | .ok a, f => f a
  | .err e, _ => .err e
  | .panicked, _ => .panicked
  | .nofuel, _ => .nofuel

instance : Monad TcR where
  pure := .ok
  bind := TcR.bind

/-- Projection of the newtype `Type` (`fn internal`, line 118). -/
def Ty.internal : Ty → TypeInternal
  | .mk t => t

/-- Projection of the term component of a `Normalized` value
(`fn unroll_ref` / `into_expr`). -/
def Normalized.expr : Normalized → Expr
  | .mk e _ => e

/-- Projection of the type component of a `Normalized` value. -/
def Normalized.ty? : Normalized → Option Ty
  | .mk _ t => t

/-- Constant-to-normalized conversion (`const_to_normalized`, lines 423-433):
the normal form of a constant, annotated with the next universe
(`SuperType` for `Sort`). -/
def const_to_normalized (c : Const) : Normalized :=
  .mk (.const c)
    (some (.mk (match c with
      | .type => .const .kind
      | .kind => .const .sort
      | .sort => .superType)))

/-- Constant-to-type conversion (`const_to_type`, lines 435-437). -/
def const_to_type (c : Const) : Ty :=
  .mk (.const c)

/-- The axiom map (`type_of_const`, lines 439-445): `Type : Kind`,
`Kind : Sort`, `Sort : SuperType`. -/
def type_of_const (c : Const) : Ty :=
  match c with
  | .type => .mk (.const .kind)
  | .kind => .mk (.const .sort)
  | .sort => .mk .superType

/-- Universe formation (`function_check`, lines 324-333).  `none` stands
for the Rust `Err(())`. -/
def function_check (a : Const) (b : Const) : Option Const :=
  match a, b with
  | _, .type => some .type
  | .kind, .kind => some .kind
  | .sort, .sort => some .sort
  | .sort, .kind => some .sort
  | _, _ => none

/-- The type of a `Typed` value (`get_type`/`get_type_move`, lines 36-42):
the stored type, or an `Untyped` error when absent. -/
def typed_get_type (t : Typed) : TcR Ty :=
  match t.ty? with
  | some ty => .ok ty
  | none => .err ⟨[], t.expr, .untyped⟩

/-- The type of a `Normalized` value (`get_type_move`, lines 77-86):
the stored type, or an `Untyped` error when absent. -/
def norm_get_type (n : Normalized) : TcR Ty :=
  match n.ty? with
  | some ty => .ok ty
  | none => .err ⟨[], n.expr, .untyped⟩

/-- The type of a `Type` value, the `DynamicType` impl used at
`ta.get_type()?` in `typecheck.rs`.
Modelled from the spec: a constant's type is given by the axiom map
(§4.5); the `Pi` and `RecordType` internal variants store the universe
constant computed when they were formed; `SuperType` has no type
(`Untyped`, §3.2 inv. 6); an expression carries the type recorded while
it was checked. -/
def ty_get_type (t : Ty) : TcR Ty :=
  match t.internal with
  | .const c => .ok (type_of_const c)
  | .pi _ c _ _ _ => .ok (.mk (.const c))
  | .recordType _ c _ => .ok (.mk (.const c))
  | .superType => .err ⟨[], .const .sort, .untyped⟩
  | .expr n => norm_get_type n

/-- Lookup in the persistent context.
Modelled from the spec: `lookup(V(x, n))` returns the `n`-th entry from
the top whose label equals `x` (§3.1, §4.3). -/
def ctx_lookup : TcCtx → Label → Nat → Option EnvItem
  | [], _, _ => none
  | (y, e) :: rest, x, n =>
    if y = x then
      if n = 0 then some e else ctx_lookup rest x (n - 1)
    else ctx_lookup rest x n

/-- Context lookup of the typechecker (`TypecheckContext::lookup`,
lines 302-313).  On a value binding the stored value's own type is
returned; the `?` operator inside an `Option`-returning function turns
any `TypeError` (via `From<TypeError> for NoneError`, lines 1081-1085)
into `None`. -/
def tc_lookup (ctx : TcCtx) (v : V) : Option Ty :=
  match ctx_lookup ctx v.x v.n with
  | some (.type _ t) => some t
  | some (.value t) =>
    match norm_get_type t with
    | .ok ty => some ty
    | _ => none
  | none => none

/-- Variable matching under a binder-pair stack (`match_vars`,
lines 335-351).  The stack is listed in the order the Rust `Vec` is
iterated: index 0 first, i.e. the outermost pushed pair first.  The
counters are `usize`; decrementing a zero counter underflows, which is
the `none` outcome (a panic under debug assertions). -/
def match_vars : V → V → List (Label × Label) → Option Bool
  | vl, vr, [] => some (decide (vl.x = vr.x ∧ vl.n = vr.n))
  | ⟨xL, nL⟩, ⟨xR, nR⟩, (xL2, xR2) :: rest =>
    if nL = 0 ∧ nR = 0 ∧ xL = xL2 ∧ xR = xR2 then some true
    else
      match (if xL = xL2 then (if nL = 0 then none else some (nL - 1)) else some nL),
            (if xR = xR2 then (if nR = 0 then none else some (nR - 1)) else some nR) with
      | some nL2, some nR2 => match_vars ⟨xL, nL2⟩ ⟨xR, nR2⟩ rest
      | _, _ => none

/-- The Rust `&&` on panic-carrying booleans: a `false` or a panic on
the left short-circuits; only a `true` consults the right side. -/
def and_then (o1 : Option Bool) (o2 : Option Bool) : Option Bool :=
  match o1 with
  | none => none
  | some false => some false
  | some true => o2

mutual
/-- Structural α-comparison (`fn go` inside `prop_equal`,
lines 360-404).  Binder pairs are pushed at the back of the stack, as
`Vec::push` does; only `Pi` pushes.  Constructors without a matching
arm — including `Lam` and `Let` — fall to the final `(_, _) => false`
arm.  A `none` result is the panic propagated out of `match_vars`. -/
def go : List (Label × Label) → Expr → Expr → Option Bool
  | ctx, el, er =>
    match el, er with
    | .const a, .const b => some (decide (a = b))
    | .builtin a, .builtin b => some (decide (a = b))
    | .var vl, .var vr => match_vars vl vr ctx
    | .pi xL tL bL, .pi xR tR bR =>
      and_then (go ctx tL tR) (go (ctx ++ [(xL, xR)]) bL bR)
    | .app fL aL, .app fR aR =>
      and_then (go ctx fL fR) (go ctx aL aR)
    | .recordType ktsL, .recordType ktsR =>
      if ktsL.length = ktsR.length then go_kts ctx ktsL ktsR else some false
    | .unionType ktsL, .unionType ktsR =>
      if ktsL.length = ktsR.length then go_opt_kts ctx ktsL ktsR else some false
    | _, _ => some false
/-- Elementwise comparison of record-type entries (the `zip`/`all` over
`BTreeMap` iterators in `go`): keys must agree pairwise and the values
are compared recursively, short-circuiting on the first mismatch. -/
def go_kts : List (Label × Label) → List (Label × Expr) → List (Label × Expr) → Option Bool
  | _, [], _ => some true
  | _, _ :: _, [] => some true
  | ctx, (k1, t1) :: r1, (k2, t2) :: r2 =>
    if k1 = k2 then and_then (go ctx t1 t2) (go_kts ctx r1 r2)
    else some false
/-- Elementwise comparison of union-type entries (`go`, lines 389-401):
keys agree, absent alternatives match absent ones, present ones are
compared recursively, and a present/absent mismatch is unequal. -/
def go_opt_kts : List (Label × Label) → List (Label × Option Expr) → List (Label × Option Expr) → Option Bool
  | _, [], _ => some true
  | _, _ :: _, [] => some true
  | ctx, (k1, t1) :: r1, (k2, t2) :: r2 =>
    if k1 = k2 then
      match t1, t2 with
      | none, none => go_opt_kts ctx r1 r2
      | some u1, some u2 => and_then (go ctx u1 u2) (go_opt_kts ctx r1 r2)
      | _, _ => some false
    else some false
end

/-- Canonical de Bruijn forms of the fragment of terms that `go`
compares structurally.  Binder labels are erased; a variable is either
bound (the index of the stack entry it resolves to, in the scan order
of `match_vars`) or free (its label and residual counter). -/
inductive DB where
| const : Const → DB
| builtin : Builtin → DB
| bound : Nat → DB
| free : Label → Nat → DB
| pi : DB → DB → DB
| app : DB → DB → DB
| recordType : List (Label × DB) → DB
| unionType : List (Label × Option DB) → DB

/-- Increment of the bound-variable index of a scan result. -/
def db_bump : Sum Nat (Label × Nat) → Sum Nat (Label × Nat)
  | .inl p => .inl (p + 1)
  | .inr f => .inr f

/-- The variable scan performed by one side of `match_vars`: walk the
label stack front to back, decrementing the counter at each matching
label, and stop at the first entry where the counter is exhausted on a
matching label.  The result is either the index of that entry or the
free residue. -/
def v_scan : Label → Nat → List Label → Sum Nat (Label × Nat)
  | x, n, [] => .inr (x, n)
  | x, n, y :: rest =>
    if x = y then
      if n = 0 then .inl 0
      else db_bump (v_scan x (n - 1) rest)
    else db_bump (v_scan x n rest)

/-- The canonical form of a variable relative to a stack of binder
labels: the scan result rendered as a bound index or a free residue. -/
def var_db (v : V) (L : List Label) : DB :=
  match v_scan v.x v.n L with
  | .inl p => .bound p
  | .inr (x, m) => .free x m

mutual
/-- Translation of a term to its canonical de Bruijn form relative to a
stack of binder labels.  Defined exactly on the fragment of
constructors that `go` compares structurally; `none` elsewhere. -/
def toDB : List Label → Expr → Option DB
  | _, .const c => some (.const c)
  | _, .builtin b => some (.builtin b)
  | L, .var v => some (var_db v L)
  | L, .pi x t b =>
    match toDB L t, toDB (L ++ [x]) b with
    | some t2, some b2 => some (.pi t2 b2)
    | _, _ => none
  | L, .app f a =>
    match toDB L f, toDB L a with
    | some f2, some a2 => some (.app f2 a2)
    | _, _ => none
  | L, .recordType kts =>
    match toDB_kts L kts with
    | some ds => some (.recordType ds)
    | none => none
  | L, .unionType kts =>
    match toDB_opt_kts L kts with
    | some ds => some (.unionType ds)
    | none => none
  | _, _ => none
/-- Canonical forms of a record-type association list. -/
def toDB_kts : List Label → List (Label × Expr) → Option (List (Label × DB))
  | _, [] => some []
  | L, (k, t) :: rest =>
    match toDB L t, toDB_kts L rest with
    | some d, some ds => some ((k, d) :: ds)
    | _, _ => none
/-- Canonical forms of a union-type association list. -/
def toDB_opt_kts : List Label → List (Label × Option Expr) → Option (List (Label × Option DB))
  | _, [] => some []
  | L, (k, none) :: rest =>
    match toDB_opt_kts L rest with
    | some ds => some ((k, none) :: ds)
    | none => none
  | L, (k, some t) :: rest =>
    match toDB L t, toDB_opt_kts L rest with
    | some d, some ds => some ((k, some d) :: ds)
    | _, _ => none
end

mutual
/-- Capture-avoiding index shift on terms.
Modelled from the spec: `shift(delta, V(x, n), term)` rewrites each free
occurrence of `x` at index `n` or above by `delta`, incrementing the
cutoff component of the shifted variable when crossing a `Lam`, `Pi` or
`Let` binder whose bound label equals `x` (§4.1).  Embedded resolved
values are closed (§3.2 inv. 1), so the shift does not descend into
`Embed`. -/
def expr_shift : Nat → Int → V → Expr → TcR Expr
  | 0, _, _, _ => .nofuel
  | fuel + 1, d, w, e =>
    match e with
    | .var u =>
      pure (.var (if u.x = w.x ∧ w.n ≤ u.n then ⟨u.x, ((u.n : Int) + d).toNat⟩ else u))
    | .lam y t b => do
      let t2 ← expr_shift fuel d w t
      let b2 ← expr_shift fuel d (w.shift0 1 y) b
      pure (.lam y t2 b2)
    | .pi y t b => do
      let t2 ← expr_shift fuel d w t
      let b2 ← expr_shift fuel d (w.shift0 1 y) b
      pure (.pi y t2 b2)
    | .app f a => do
      let f2 ← expr_shift fuel d w f
      let a2 ← expr_shift fuel d w a
      pure (.app f2 a2)
    | .let_ y t? v b => do
      let t2 ← match t? with
        | some t => do
          let t2 ← expr_shift fuel d w t
          pure (some t2)
        | none => pure none
      let v2 ← expr_shift fuel d w v
      let b2 ← expr_shift fuel d (w.shift0 1 y) b
      pure (.let_ y t2 v2 b2)
    | .annot a t => do
      let a2 ← expr_shift fuel d w a
      let t2 ← expr_shift fuel d w t
      pure (.annot a2 t2)
    | .const c => pure (.const c)
    | .builtin b => pure (.builtin b)
    | .boolLit b => pure (.boolLit b)
    | .naturalLit n => pure (.naturalLit n)
    | .integerLit i => pure (.integerLit i)
    | .doubleLit n => pure (.doubleLit n)
    | .textLit ps => do
      let ps2 ← expr_shift_text fuel d w ps
      pure (.textLit ps2)
    | .boolIf c t e2 => do
      let c2 ← expr_shift fuel d w c
      let t2 ← expr_shift fuel d w t
      let e3 ← expr_shift fuel d w e2
      pure (.boolIf c2 t2 e3)
    | .emptyListLit t => do
      let t2 ← expr_shift fuel d w t
      pure (.emptyListLit t2)
    | .neListLit xs => do
      let xs2 ← expr_shift_list fuel d w xs
      pure (.neListLit xs2)
    | .oldOptionalLit o t => do
      let o2 ← match o with
        | some v => do
          let v2 ← expr_shift fuel d w v
          pure (some v2)
        | none => pure none
      let t2 ← expr_shift fuel d w t
      pure (.oldOptionalLit o2 t2)
    | .someLit a => do
      let a2 ← expr_shift fuel d w a
      pure (.someLit a2)
    | .recordType kts => do
      let kts2 ← expr_shift_kts fuel d w kts
      pure (.recordType kts2)
    | .recordLit kvs => do
      let kvs2 ← expr_shift_kts fuel d w kvs
      pure (.recordLit kvs2)
    | .unionType kts => do
      let kts2 ← expr_shift_opt_kts fuel d w kts
      pure (.unionType kts2)
    | .unionLit x v kvs => do
      let v2 ← expr_shift fuel d w v
      let kvs2 ← expr_shift_opt_kts fuel d w kvs
      pure (.unionLit x v2 kvs2)
    | .field r x => do
      let r2 ← expr_shift fuel d w r
      pure (.field r2 x)
    | .binOp o l r => do
      let l2 ← expr_shift fuel d w l
      let r2 ← expr_shift fuel d w r
      pure (.binOp o l2 r2)
    | .embed n => pure (.embed n)
/-- Shift of a list of terms. -/
def expr_shift_list : Nat → Int → V → List Expr → TcR (List Expr)
  | 0, _, _, _ => .nofuel
  | _ + 1, _, _, [] => pure []
  | fuel + 1, d, w, x :: rest => do
    let x2 ← expr_shift fuel d w x
    let rest2 ← expr_shift_list fuel d w rest
    pure (x2 :: rest2)
/-- Shift of a labelled association list of terms. -/
def expr_shift_kts : Nat → Int → V → List (Label × Expr) → TcR (List (Label × Expr))
  | 0, _, _, _ => .nofuel
  | _ + 1, _, _, [] => pure []
  | fuel + 1, d, w, (k, t) :: rest => do
    let t2 ← expr_shift fuel d w t
    let rest2 ← expr_shift_kts fuel d w rest
    pure ((k, t2) :: rest2)
/-- Shift of a labelled association list of optional terms. -/
def expr_shift_opt_kts : Nat → Int → V → List (Label × Option Expr) → TcR (List (Label × Option Expr))
  | 0, _, _, _ => .nofuel
  | _ + 1, _, _, [] => pure []
  | fuel + 1, d, w, (k, none) :: rest => do
    let rest2 ← expr_shift_opt_kts fuel d w rest
    pure ((k, none) :: rest2)
  | fuel + 1, d, w, (k, some t) :: rest => do
    let t2 ← expr_shift fuel d w t
    let rest2 ← expr_shift_opt_kts fuel d w rest
    pure ((k, some t2) :: rest2)
/-- Shift of interpolated text pieces. -/
def expr_shift_text : Nat → Int → V → List (Sum String Expr) → TcR (List (Sum String Expr))
  | 0, _, _, _ => .nofuel
  | _ + 1, _, _, [] => pure []
  | fuel + 1, d, w, .inl s :: rest => do
    let rest2 ← expr_shift_text fuel d w rest
    pure (.inl s :: rest2)
  | fuel + 1, d, w, .inr e :: rest => do
    let e2 ← expr_shift fuel d w e
    let rest2 ← expr_shift_text fuel d w rest
    pure (.inr e2 :: rest2)
end

mutual
/-- Shift on semantic types (`TypeInternal::shift`, lines 196-217): the
stored contexts are not shifted; the codomain of an internal `Pi` is
shifted under the binder. -/
def ti_shift : Nat → Int → V → TypeInternal → TcR TypeInternal
  | 0, _, _, _ => .nofuel
  | fuel + 1, d, w, ti =>
    match ti with
    | .expr e => do
      let e2 ← norm_shift fuel d w e
      pure (.expr e2)
    | .pi ctx c x t e => do
      let t2 ← ty_shift fuel d w t
      let e2 ← ty_shift fuel d (w.shift0 1 x) e
      pure (.pi ctx c x t2 e2)
    | .recordType ctx c kts => do
      let kts2 ← ty_shift_kts fuel d w kts
      pure (.recordType ctx c kts2)
    | .const c => pure (.const c)
    | .superType => pure .superType
/-- Shift on the `Type` newtype (`Type::shift`, lines 124-126). -/
def ty_shift : Nat → Int → V → Ty → TcR Ty
  | 0, _, _, _ => .nofuel
  | fuel + 1, d, w, t => do
    let ti ← ti_shift fuel d w t.internal
    pure (.mk ti)
/-- Shift on normalised values (`Normalized::shift`, lines 55-61): the
term and the stored type are both shifted. -/
def norm_shift : Nat → Int → V → Normalized → TcR Normalized
  | 0, _, _, _ => .nofuel
  | fuel + 1, d, w, n => do
    let e2 ← expr_shift fuel d w n.expr
    let t2 ← match n.ty? with
      | some t => do
        let t3 ← ty_shift fuel d w t
        pure (some t3)
      | none => pure none
    pure (.mk e2 t2)
/-- Shift of the value types of an internal record type. -/
def ty_shift_kts : Nat → Int → V → List (Label × Ty) → TcR (List (Label × Ty))
  | 0, _, _, _ => .nofuel
  | _ + 1, _, _, [] => pure []
  | fuel + 1, d, w, (k, t) :: rest => do
    let t2 ← ty_shift fuel d w t
    let rest2 ← ty_shift_kts fuel d w rest
    pure ((k, t2) :: rest2)
end

/-- Label-based shift on the `Type` newtype (`shift0`, lines 121-123 and
193-194): a shift at `V(label, 0)`. -/
def ty_shift0 (fuel : Nat) (d : Int) (x : Label) (t : Ty) : TcR Ty :=
  ty_shift fuel d ⟨x, 0⟩ t

/-- Label-based shift on normalised values (`shift0`, lines 48-54). -/
def norm_shift0 (fuel : Nat) (d : Int) (x : Label) (n : Normalized) : TcR Normalized :=
  norm_shift fuel d ⟨x, 0⟩ n

/-- Shift on context entries (`EnvItem::shift0`, lines 268-276). -/
def env_item_shift0 (fuel : Nat) (d : Int) (x : Label) : EnvItem → TcR EnvItem
  | .type v t => do
    let t2 ← ty_shift0 fuel d x t
    pure (.type (v.shift0 d x) t2)
  | .value n => do
    let n2 ← norm_shift0 fuel d x n
    pure (.value n2)

mutual
/-- Combined substitute-then-shift-back on terms.
Modelled from the spec: replaces `V(x, n)` by the replacement,
renumbering the remaining free occurrences of `x` above `n` down by one,
and pre-shifting the replacement when crossing a binder so that its free
variables stay correctly bound; applied as a single pass (§4.1). -/
def subst_shift : Nat → V → Expr → Expr → TcR Expr
  | 0, _, _, _ => .nofuel
  | fuel + 1, w, val, e =>
    match e with
    | .var u =>
      if u = w then pure val
      else if u.x = w.x ∧ w.n < u.n then pure (.var ⟨u.x, u.n - 1⟩)
      else pure (.var u)
    | .lam y t b => do
      let t2 ← subst_shift fuel w val t
      let val2 ← expr_shift fuel 1 ⟨y, 0⟩ val
      let b2 ← subst_shift fuel (w.shift0 1 y) val2 b
      pure (.lam y t2 b2)
    | .pi y t b => do
      let t2 ← subst_shift fuel w val t
      let val2 ← expr_shift fuel 1 ⟨y, 0⟩ val
      let b2 ← subst_shift fuel (w.shift0 1 y) val2 b
      pure (.pi y t2 b2)
    | .app f a => do
      let f2 ← subst_shift fuel w val f
      let a2 ← subst_shift fuel w val a
      pure (.app f2 a2)
    | .let_ y t? v b => do
      let t2 ← match t? with
        | some t => do
          let t3 ← subst_shift fuel w val t
          pure (some t3)
        | none => pure none
      let v2 ← subst_shift fuel w val v
      let val2 ← expr_shift fuel 1 ⟨y, 0⟩ val
      let b2 ← subst_shift fuel (w.shift0 1 y) val2 b
      pure (.let_ y t2 v2 b2)
    | .annot a t => do
      let a2 ← subst_shift fuel w val a
      let t2 ← subst_shift fuel w val t
      pure (.annot a2 t2)
    | .const c => pure (.const c)
    | .builtin b => pure (.builtin b)
    | .boolLit b => pure (.boolLit b)
    | .naturalLit n => pure (.naturalLit n)
    | .integerLit i => pure (.integerLit i)
    | .doubleLit n => pure (.doubleLit n)
    | .textLit ps => do
      let ps2 ← subst_shift_text fuel w val ps
      pure (.textLit ps2)
    | .boolIf c t e2 => do
      let c2 ← subst_shift fuel w val c
      let t2 ← subst_shift fuel w val t
      let e3 ← subst_shift fuel w val e2
      pure (.boolIf c2 t2 e3)
    | .emptyListLit t => do
      let t2 ← subst_shift fuel w val t
      pure (.emptyListLit t2)
    | .neListLit xs => do
      let xs2 ← subst_shift_list fuel w val xs
      pure (.neListLit xs2)
    | .oldOptionalLit o t => do
      let o2 ← match o with
        | some v => do
          let v2 ← subst_shift fuel w val v
          pure (some v2)
        | none => pure none
      let t2 ← subst_shift fuel w val t
      pure (.oldOptionalLit o2 t2)
    | .someLit a => do
      let a2 ← subst_shift fuel w val a
      pure (.someLit a2)
    | .recordType kts => do
      let kts2 ← subst_shift_kts fuel w val kts
      pure (.recordType kts2)
    | .recordLit kvs => do
      let kvs2 ← subst_shift_kts fuel w val kvs
      pure (.recordLit kvs2)
    | .unionType kts => do
      let kts2 ← subst_shift_opt_kts fuel w val kts
      pure (.unionType kts2)
    | .unionLit x v kvs => do
      let v2 ← subst_shift fuel w val v
      let kvs2 ← subst_shift_opt_kts fuel w val kvs
      pure (.unionLit x v2 kvs2)
    | .field r x => do
      let r2 ← subst_shift fuel w val r
      pure (.field r2 x)
    | .binOp o l r => do
      let l2 ← subst_shift fuel w val l
      let r2 ← subst_shift fuel w val r
      pure (.binOp o l2 r2)
    | .embed n => pure (.embed n)
/-- Substitution over a list of terms. -/
def subst_shift_list : Nat → V → Expr → List Expr → TcR (List Expr)
  | 0, _, _, _ => .nofuel
  | _ + 1, _, _, [] => pure []
  | fuel + 1, w, val, x :: rest => do
    let x2 ← subst_shift fuel w val x
    let rest2 ← subst_shift_list fuel w val rest
    pure (x2 :: rest2)
/-- Substitution over a labelled association list of terms. -/
def subst_shift_kts : Nat → V → Expr → List (Label × Expr) → TcR (List (Label × Expr))
  | 0, _, _, _ => .nofuel
  | _ + 1, _, _, [] => pure []
  | fuel + 1, w, val, (k, t) :: rest => do
    let t2 ← subst_shift fuel w val t
    let rest2 ← subst_shift_kts fuel w val rest
    pure ((k, t2) :: rest2)
/-- Substitution over a labelled association list of optional terms. -/
def subst_shift_opt_kts : Nat → V → Expr → List (Label × Option Expr) → TcR (List (Label × Option Expr))
  | 0, _, _, _ => .nofuel
  | _ + 1, _, _, [] => pure []
  | fuel + 1, w, val, (k, none) :: rest => do
    let rest2 ← subst_shift_opt_kts fuel w val rest
    pure ((k, none) :: rest2)
  | fuel + 1, w, val, (k, some t) :: rest => do
    let t2 ← subst_shift fuel w val t
    let rest2 ← subst_shift_opt_kts fuel w val rest
    pure ((k, some t2) :: rest2)
/-- Substitution over interpolated text pieces. -/
def subst_shift_text : Nat → V → Expr → List (Sum String Expr) → TcR (List (Sum String Expr))
  | 0, _, _, _ => .nofuel
  | _ + 1, _, _, [] => pure []
  | fuel + 1, w, val, .inl s :: rest => do
    let rest2 ← subst_shift_text fuel w val rest
    pure (.inl s :: rest2)
  | fuel + 1, w, val, .inr e :: rest => do
    let e2 ← subst_shift fuel w val e
    let rest2 ← subst_shift_text fuel w val rest
    pure (.inr e2 :: rest2)
end

/-- Head reduction of a builtin application on literal arguments.
Modelled from the spec: the builtin reduction rules of §4.2 for the
unary `Natural` predicates; the remaining builtin rules (the folds,
builds and list eliminators) are not reachable from any claim checked in
this development and are left as stuck applications. -/
def app_builtin_reduce (f : Expr) (a : Expr) : Expr :=
  match f, a with
  | .builtin .naturalIsZero, .naturalLit n => .boolLit (decide (n = 0))
  | .builtin .naturalEven, .naturalLit n => .boolLit (decide (n % 2 = 0))
  | .builtin .naturalOdd, .naturalLit n => .boolLit (decide (n % 2 = 1))
  | _, _ => .app f a

mutual
/-- Normalisation to β-normal form.
Modelled from the spec: subterms are normalised before their parent;
β-redexes, `let`, `Annot`, `if` on literal or boolean-identity branches,
field access on record literals and the builtin rules of
`app_builtin_reduce` are reduced; an `Embed` node is replaced by the
already-normal embedded term (§3.3, §4.2). -/
def normalize : Nat → Expr → TcR Expr
  | 0, _ => .nofuel
  | fuel + 1, e =>
    match e with
    | .app f a => do
      let f2 ← normalize fuel f
      let a2 ← normalize fuel a
      match f2 with
      | .lam x _ b => do
        let b2 ← subst_shift fuel ⟨x, 0⟩ a2 b
        normalize fuel b2
      | _ => pure (app_builtin_reduce f2 a2)
    | .let_ x _ v b => do
      let v2 ← normalize fuel v
      let b2 ← subst_shift fuel ⟨x, 0⟩ v2 b
      normalize fuel b2
    | .annot a _ => normalize fuel a
    | .boolIf c t e2 => do
      let c2 ← normalize fuel c
      let t2 ← normalize fuel t
      let e3 ← normalize fuel e2
      match c2 with
      | .boolLit true => pure t2
      | .boolLit false => pure e3
      | _ =>
        match t2, e3 with
        | .boolLit true, .boolLit false => pure c2
        | _, _ => pure (.boolIf c2 t2 e3)
    | .field r x => do
      let r2 ← normalize fuel r
      match r2 with
      | .recordLit kvs =>
        match kvs.lookup x with
        | some v => pure v
        | none => pure (.field r2 x)
      | _ => pure (.field r2 x)
    | .embed n => pure n.expr
    | .var u => pure (.var u)
    | .lam y t b => do
      let t2 ← normalize fuel t
      let b2 ← normalize fuel b
      pure (.lam y t2 b2)
    | .pi y t b => do
      let t2 ← normalize fuel t
      let b2 ← normalize fuel b
      pure (.pi y t2 b2)
    | .const c => pure (.const c)
    | .builtin b => pure (.builtin b)
    | .boolLit b => pure (.boolLit b)
    | .naturalLit n => pure (.naturalLit n)
    | .integerLit i => pure (.integerLit i)
    | .doubleLit n => pure (.doubleLit n)
    | .textLit ps => do
      let ps2 ← normalize_text fuel ps
      pure (.textLit ps2)
    | .emptyListLit t => do
      let t2 ← normalize fuel t
      pure (.emptyListLit t2)
    | .neListLit xs => do
      let xs2 ← normalize_list fuel xs
      pure (.neListLit xs2)
    | .oldOptionalLit o t => do
      let o2 ← match o with
        | some v => do
          let v2 ← normalize fuel v
          pure (some v2)
        | none => pure none
      let t2 ← normalize fuel t
      pure (.oldOptionalLit o2 t2)
    | .someLit a => do
      let a2 ← normalize fuel a
      pure (.someLit a2)
    | .recordType kts => do
      let kts2 ← normalize_kts fuel kts
      pure (.recordType kts2)
    | .recordLit kvs => do
      let kvs2 ← normalize_kts fuel kvs
      pure (.recordLit kvs2)
    | .unionType kts => do
      let kts2 ← normalize_opt_kts fuel kts
      pure (.unionType kts2)
    | .unionLit x v kvs => do
      let v2 ← normalize fuel v
      let kvs2 ← normalize_opt_kts fuel kvs
      pure (.unionLit x v2 kvs2)
    | .binOp o l r => do
      let l2 ← normalize fuel l
      let r2 ← normalize fuel r
      pure (.binOp o l2 r2)
/-- Normalisation of a list of terms. -/
def normalize_list : Nat → List Expr → TcR (List Expr)
  | 0, _ => .nofuel
  | _ + 1, [] => pure []
  | fuel + 1, x :: rest => do
    let x2 ← normalize fuel x
    let rest2 ← normalize_list fuel rest
    pure (x2 :: rest2)
/-- Normalisation of a labelled association list of terms. -/
def normalize_kts : Nat → List (Label × Expr) → TcR (List (Label × Expr))
  | 0, _ => .nofuel
  | _ + 1, [] => pure []
  | fuel + 1, (k, t) :: rest => do
    let t2 ← normalize fuel t
    let rest2 ← normalize_kts fuel rest
    pure ((k, t2) :: rest2)
/-- Normalisation of a labelled association list of optional terms. -/
def normalize_opt_kts : Nat → List (Label × Option Expr) → TcR (List (Label × Option Expr))
  | 0, _ => .nofuel
  | _ + 1, [] => pure []
  | fuel + 1, (k, none) :: rest => do
    let rest2 ← normalize_opt_kts fuel rest
    pure ((k, none) :: rest2)
  | fuel + 1, (k, some t) :: rest => do
    let t2 ← normalize fuel t
    let rest2 ← normalize_opt_kts fuel rest
    pure ((k, some t2) :: rest2)
/-- Normalisation of interpolated text pieces. -/
def normalize_text : Nat → List (Sum String Expr) → TcR (List (Sum String Expr))
  | 0, _ => .nofuel
  | _ + 1, [] => pure []
  | fuel + 1, .inl s :: rest => do
    let rest2 ← normalize_text fuel rest
    pure (.inl s :: rest2)
  | fuel + 1, .inr e :: rest => do
    let e2 ← normalize fuel e
    let rest2 ← normalize_text fuel rest
    pure (.inr e2 :: rest2)
end

/-- Normalisation of a `Typed` value, `Typed::normalize` as used at
lines 237, 256 and 713.
Modelled from the spec: the term is reduced to normal form and keeps the
type recorded for it; the context is dropped, as `Normalized` carries
none (§6.1). -/
def typed_normalize (fuel : Nat) (t : Typed) : TcR Normalized := do
  let e2 ← normalize fuel t.expr
  pure (.mk e2 t.ty?)

/-- Map of the shift over all existing context entries, the
`self.0.map(|_, e| e.shift0(1, x))` of `insert_type`.
Modelled from the spec: the persistent context maps a function over
every stored entry, keeping labels (§4.3). -/
def ctx_map_shift (fuel : Nat) : TcCtx → Label → TcR TcCtx
  | [], _ => pure []
  | (k, e) :: rest, x => do
    let e2 ← env_item_shift0 fuel 1 x e
    let rest2 ← ctx_map_shift fuel rest x
    pure ((k, e2) :: rest2)

/-- Pushing a type binding (`TypecheckContext::insert_type`,
lines 285-292): every pre-existing entry is shifted by +1 on `x` and the
stored type itself is shifted by +1 on `x` before insertion. -/
def insert_type (fuel : Nat) (ctx : TcCtx) (x : Label) (t : Ty) : TcR TcCtx := do
  let mapped ← ctx_map_shift fuel ctx x
  let t2 ← ty_shift0 fuel 1 x t
  pure ((x, .type ⟨x, 0⟩ t2) :: mapped)

/-- Pushing a value binding (`TypecheckContext::insert_value`,
lines 293-301): the stored value is shifted by +1 on `x`; the
pre-existing entries are inserted unchanged. -/
def insert_value (fuel : Nat) (ctx : TcCtx) (x : Label) (t : Normalized) : TcR TcCtx := do
  let t2 ← norm_shift0 fuel 1 x t
  pure ((x, .value t2) :: ctx)

mutual
/-- Conversion of a semantic type back to a normalised term
(`TypeInternal::into_normalized`, lines 166-192).  The `Pi` and
`RecordType` variants rebuild a syntactic term whose components are
`Embed` nodes and normalise it; `SuperType` is the `Untyped` error. -/
def into_normalized : Nat → TypeInternal → TcR Normalized
  | 0, _ => .nofuel
  | fuel + 1, ti =>
    match ti with
    | .expr e => pure e
    | .pi ctx c x t e => do
      let tn ← into_normalized fuel t.internal
      let en ← into_normalized fuel e.internal
      typed_normalize fuel ⟨.pi x (.embed tn) (.embed en), some (const_to_type c), ctx⟩
    | .recordType ctx c kts => do
      let kts2 ← embed_kts fuel kts
      typed_normalize fuel ⟨.recordType kts2, some (const_to_type c), ctx⟩
    | .const c => pure (const_to_normalized c)
    | .superType => .err ⟨[], .const .sort, .untyped⟩
/-- Embedding of the value types of an internal record type (the
`traverse_ref_simple(|e| e.clone().embed())` of `into_normalized` and
`into_expr`). -/
def embed_kts : Nat → List (Label × Ty) → TcR (List (Label × Expr))
  | 0, _ => .nofuel
  | _ + 1, [] => pure []
  | fuel + 1, (k, t) :: rest => do
    let n ← into_normalized fuel t.internal
    let rest2 ← embed_kts fuel rest
    pure ((k, .embed n) :: rest2)
end

/-- The `.unwrap()` on `as_normalized` inside `prop_equal`
(line 415): an error becomes a panic. -/
def unwrap_norm : TcR Normalized → TcR Normalized
  | .ok n => .ok n
  | .err _ => .panicked
  | .panicked => .panicked
  | .nofuel => .nofuel

/-- Equality up to α-equivalence (`prop_equal`, lines 354-421): two
`SuperType` internals are equal, a `SuperType` never equals anything
else, and otherwise both sides are converted to normalised terms
(unwrapping the result) and compared by `go` under an empty binder
stack.  A `none` from `go` is the propagated `usize` underflow panic. -/
def prop_equal : Nat → Ty → Ty → TcR Bool
  | 0, _, _ => .nofuel
  | fuel + 1, tl, tr =>
    match tl.internal, tr.internal with
    | .superType, .superType => pure true
    | .superType, _ => pure false
    | _, .superType => pure false
    | _, _ => do
      let nl ← unwrap_norm (into_normalized fuel tl.internal)
      let nr ← unwrap_norm (into_normalized fuel tr.internal)
      match go [] nl.expr nr.expr with
      | some b => pure b
      | none => .panicked

/-- Conversion of a normalised value into a `Typed` one (the
`From<Normalized> for Typed` used at `t.into_normalized()?.into()`).
Modelled from the spec: the term keeps its recorded type and gets a
fresh empty context (§3.3). -/
def norm_to_typed (n : Normalized) : Typed :=
  ⟨n.expr, n.ty?, []⟩

/-- The type of a `TypedOrType` (`get_type`, lines 242-247). -/
def tot_get_type : TypedOrType → TcR Ty
  | .typed e => typed_get_type e
  | .type t => ty_get_type t

/-- The owned type of a `TypedOrType` (`get_type_move`, lines 248-253). -/
def tot_get_type_move : TypedOrType → TcR Ty
  | .typed e => typed_get_type e
  | .type t => ty_get_type t

/-- Conversion to a `Typed` value (`into_typed`, lines 227-232). -/
def tot_into_typed (fuel : Nat) : TypedOrType → TcR Typed
  | .typed e => pure e
  | .type t => do
    let n ← into_normalized fuel t.internal
    pure (norm_to_typed n)

/-- Normalisation of a `TypedOrType` (`normalize`, lines 254-259). -/
def tot_normalize (fuel : Nat) : TypedOrType → TcR Normalized
  | .typed e => typed_normalize fuel e
  | .type t => into_normalized fuel t.internal

/-- The intermediate types of `typecheck.rs` lines 541-545. -/
inductive TypeIntermediate where
| pi : TcCtx → Label → Ty → Ty → TypeIntermediate
| recordType : TcCtx → List (Label × Ty) → TypeIntermediate

/-- Conversion of a `TypeIntermediate` to a syntactic term
(`into_expr`, lines 639-645), embedding each component. -/
def ti_into_expr (fuel : Nat) : TypeIntermediate → TcR Expr
  | .pi _ x t e => do
    let tn ← into_normalized fuel t.internal
    let en ← into_normalized fuel e.internal
    pure (.pi x (.embed tn) (.embed en))
  | .recordType _ kts => do
    let kts2 ← embed_kts fuel kts
    pure (.recordType kts2)

mutual
/-- Typechecking of an intermediate type (`TypeIntermediate::typecheck`,
lines 547-638).  For a `Pi`, the domain's and codomain's types must be
constants (`InvalidInputType` / `InvalidOutputType`), combined by
`function_check` (`NoDependentTypes` on failure); the result caches the
computed universe.  For a record type all field types must live at one
constant (`InvalidFieldType`), defaulting to `Type` when empty. -/
def ti_typecheck : Nat → TypeIntermediate → TcR TypedOrType
  | 0, _ => .nofuel
  | fuel + 1, ti =>
    match ti with
    | .pi ctx x ta tb => do
      let ctx2 ← insert_type fuel ctx x ta
      let tat ← ty_get_type ta
      let kA ← match tat.internal with
        | .const k => pure k
        | _ => do
          let cur ← ti_into_expr fuel ti
          let tan ← into_normalized fuel ta.internal
          TcR.err ⟨ctx, cur, .invalidInputType tan⟩
      let tbt ← ty_get_type tb
      let kB ← match tbt.internal with
        | .const k => pure k
        | _ => do
          let cur ← ti_into_expr fuel ti
          let tbn ← into_normalized fuel tb.internal
          let tbnt ← norm_get_type tbn
          let tbnn ← into_normalized fuel tbnt.internal
          TcR.err ⟨ctx2, cur, .invalidOutputType tbnn⟩
      match function_check kA kB with
      | some k => pure (.type (.mk (.pi ctx k x ta tb)))
      | none => do
        let cur ← ti_into_expr fuel ti
        let tan ← into_normalized fuel ta.internal
        let tbn ← into_normalized fuel tb.internal
        let tbnt ← norm_get_type tbn
        let tbnn ← into_normalized fuel tbnt.internal
        TcR.err ⟨ctx, cur, .noDependentTypes tan tbnn⟩
    | .recordType ctx kts => do
      let k ← ti_record_fold fuel ctx ti kts none
      pure (.type (.mk (.recordType ctx (k.getD .type) kts)))
/-- The fold over record fields inside `TypeIntermediate::typecheck`
(lines 600-627): each field type's type must be a constant, and all
fields must agree on that constant. -/
def ti_record_fold : Nat → TcCtx → TypeIntermediate → List (Label × Ty) → Option Const → TcR (Option Const)
  | 0, _, _, _, _ => .nofuel
  | _ + 1, _, _, [], acc => pure acc
  | fuel + 1, ctx, ti, (x, t) :: rest, acc => do
    let tt ← ty_get_type t
    let k2 ← match tt.internal with
      | .const k => pure k
      | _ => do
        let cur ← ti_into_expr fuel ti
        TcR.err ⟨ctx, cur, .invalidFieldType x (.type t)⟩
    match acc with
    | none => ti_record_fold fuel ctx ti rest (some k2)
    | some k1 =>
      if k1 ≠ k2 then do
        let cur ← ti_into_expr fuel ti
        TcR.err ⟨ctx, cur, .invalidFieldType x (.type t)⟩
      else ti_record_fold fuel ctx ti rest (some k1)
end

/-- Lifting of a builtin to a simple type (`simple_type_from_builtin`
with `into_simple_type`, lines 657-663).
Modelled from the spec: a `SimpleType` is a term whose type is the
constant `Type` (§4.5); its conversion wraps the bare term with that
type. -/
def simple_type_from_builtin (b : Builtin) : Ty :=
  .mk (.expr (.mk (.builtin b) (some (.mk (.const .type)))))

/-- The hard-wired builtin type schemas (`type_of_builtin`,
lines 447-512), written with the same binder labels as the source.  The
source's wildcard arm is a `panic!` for builtins outside this list; the
enumeration modelled here (the one the spec catalogues) is covered
exhaustively, so that arm is unreachable in this embedding. -/
def type_of_builtin : Builtin → Expr
  | .bool | .natural | .integer | .double | .text => .const .type
  | .list | .optional => .pi "_" (.const .type) (.const .type)
  | .naturalFold =>
    .pi "_" (.builtin .natural)
      (.pi "natural" (.const .type)
        (.pi "succ" (.pi "_" (.var ⟨"natural", 0⟩) (.var ⟨"natural", 0⟩))
          (.pi "zero" (.var ⟨"natural", 0⟩) (.var ⟨"natural", 0⟩))))
  | .naturalBuild =>
    .pi "_"
      (.pi "natural" (.const .type)
        (.pi "succ" (.pi "_" (.var ⟨"natural", 0⟩) (.var ⟨"natural", 0⟩))
          (.pi "zero" (.var ⟨"natural", 0⟩) (.var ⟨"natural", 0⟩))))
      (.builtin .natural)
  | .naturalIsZero | .naturalEven | .naturalOdd =>
    .pi "_" (.builtin .natural) (.builtin .bool)
  | .listBuild =>
    .pi "a" (.const .type)
      (.pi "_"
        (.pi "list" (.const .type)
          (.pi "cons" (.pi "_" (.var ⟨"a", 0⟩) (.pi "_" (.var ⟨"list", 0⟩) (.var ⟨"list", 0⟩)))
            (.pi "nil" (.var ⟨"list", 0⟩) (.var ⟨"list", 0⟩))))
        (.app (.builtin .list) (.var ⟨"a", 0⟩)))
  | .listFold =>
    .pi "a" (.const .type)
      (.pi "_" (.app (.builtin .list) (.var ⟨"a", 0⟩))
        (.pi "list" (.const .type)
          (.pi "cons" (.pi "_" (.var ⟨"a", 0⟩) (.pi "_" (.var ⟨"list", 0⟩) (.var ⟨"list", 0⟩)))
            (.pi "nil" (.var ⟨"list", 0⟩) (.var ⟨"list", 0⟩)))))
  | .listLength =>
    .pi "a" (.const .type)
      (.pi "_" (.app (.builtin .list) (.var ⟨"a", 0⟩)) (.builtin .natural))
  | .listHead | .listLast =>
    .pi "a" (.const .type)
      (.pi "_" (.app (.builtin .list) (.var ⟨"a", 0⟩))
        (.app (.builtin .optional) (.var ⟨"a", 0⟩)))
  | .listIndexed =>
    .pi "a" (.const .type)
      (.pi "_" (.app (.builtin .list) (.var ⟨"a", 0⟩))
        (.app (.builtin .list)
          (.recordType [("index", .builtin .natural), ("value", .var ⟨"a", 0⟩)])))
  | .listReverse =>
    .pi "a" (.const .type)
      (.pi "_" (.app (.builtin .list) (.var ⟨"a", 0⟩))
        (.app (.builtin .list) (.var ⟨"a", 0⟩)))
  | .optionalFold =>
    .pi "a" (.const .type)
      (.pi "_" (.app (.builtin .optional) (.var ⟨"a", 0⟩))
        (.pi "optional" (.const .type)
          (.pi "just" (.pi "_" (.var ⟨"a", 0⟩) (.var ⟨"optional", 0⟩))
            (.pi "nothing" (.var ⟨"optional", 0⟩) (.var ⟨"optional", 0⟩)))))
  | .optionalNone =>
    .pi "a" (.const .type) (.app (.builtin .optional) (.var ⟨"a", 0⟩))

/-- The intermediary return type of the typing rules (`Ret`,
lines 666-674). -/
inductive Ret where
| retTypedOrType : TypedOrType → Ret
| retType : Ty → Ret
| retExpr : Expr → Ret

/-- One term layer whose subexpressions have already been typechecked,
`ExprF<TypedOrType, Label, X, Normalized>` as consumed by
`type_last_layer`. -/
inductive ExprLayer where
| var : V → ExprLayer
| lam : Label → TypedOrType → TypedOrType → ExprLayer
| pi : Label → TypedOrType → TypedOrType → ExprLayer
| app : TypedOrType → TypedOrType → ExprLayer
| let_ : Label → Option TypedOrType → TypedOrType → TypedOrType → ExprLayer
| annot : TypedOrType → TypedOrType → ExprLayer
| const : Const → ExprLayer
| builtin : Builtin → ExprLayer
| boolLit : Bool → ExprLayer
| naturalLit : Nat → ExprLayer
| integerLit : Int → ExprLayer
| doubleLit : Nat → ExprLayer
| textLit : List (Sum String TypedOrType) → ExprLayer
| boolIf : TypedOrType → TypedOrType → TypedOrType → ExprLayer
| emptyListLit : TypedOrType → ExprLayer
| neListLit : List TypedOrType → ExprLayer
| oldOptionalLit : Option TypedOrType → TypedOrType → ExprLayer
| someLit : TypedOrType → ExprLayer
| recordType : List (Label × TypedOrType) → ExprLayer
| recordLit : List (Label × TypedOrType) → ExprLayer
| unionType : List (Label × Option TypedOrType) → ExprLayer
| unionLit : Label → TypedOrType → List (Label × Option TypedOrType) → ExprLayer
| field : TypedOrType → Label → ExprLayer
| binOp : BinOp → TypedOrType → TypedOrType → ExprLayer
| embed : Normalized → ExprLayer

/-- Sorted insertion into a `BTreeMap`-style association list, replacing
an existing key (the `kts.insert(x, ..)` of the `UnionLit` rule).
Modelled from the spec: record and union rows are ordered key-sorted
associations (§4.4). -/
def map_insert (x : Label) (v : Option Expr) : List (Label × Option Expr) → List (Label × Option Expr)
  | [] => [(x, v)]
  | (y, w) :: rest =>
    if x = y then (x, v) :: rest
    else if x < y then (x, v) :: (y, w) :: rest
    else (y, w) :: map_insert x v rest

/-- The fold over union alternatives in the `UnionType` rule
(lines 888-909): all present alternative types must live at one shared
constant. -/
def union_type_fold (fuel : Nat) (ctx : TcCtx) (orig : Expr) :
    List (Label × Option TypedOrType) → Option Const → TcR (Option Const)
  | [], acc => pure acc
  | (_, none) :: rest, acc => union_type_fold fuel ctx orig rest acc
  | (x, some t) :: rest, acc => do
    let tt0 ← tot_get_type t
    let tt ← ty_get_type tt0
    let k2 ← match tt.internal with
      | .const k => pure k
      | _ => TcR.err ⟨ctx, orig, .invalidFieldType x t⟩
    match acc with
    | none => union_type_fold fuel ctx orig rest (some k2)
    | some k1 =>
      if k1 ≠ k2 then TcR.err ⟨ctx, orig, .invalidFieldType x t⟩
      else union_type_fold fuel ctx orig rest (some k1)

/-- The loop over the remaining elements of a non-empty list literal
(lines 840-850): each element's type must equal the first element's. -/
def ne_list_fold (fuel : Nat) (ctx : TcCtx) (orig : Expr) (x : TypedOrType) :
    List TypedOrType → Nat → TcR Unit
  | [], _ => pure ()
  | y :: rest, i => do
    let tx ← tot_get_type x
    let ty ← tot_get_type y
    let r ← prop_equal fuel tx ty
    if r then ne_list_fold fuel ctx orig x rest (i + 1)
    else do
      let txm ← tot_get_type_move x
      let txn ← into_normalized fuel txm.internal
      TcR.err ⟨ctx, orig, .invalidListElement i txn y⟩

/-- The field-type collection of the `RecordLit` rule (lines 911-915). -/
def record_lit_types (_fuel : Nat) :
    List (Label × TypedOrType) → TcR (List (Label × Ty))
  | [] => pure []
  | (x, v) :: rest => do
    let t ← tot_get_type_move v
    let rest2 ← record_lit_types _fuel rest
    pure ((x, t) :: rest2)

/-- The embedding of the remaining alternatives of a `UnionLit`
(lines 923-932): each present alternative value is normalised and
embedded. -/
def union_lit_embed (fuel : Nat) :
    List (Label × Option TypedOrType) → TcR (List (Label × Option Expr))
  | [] => pure []
  | (x, none) :: rest => do
    let rest2 ← union_lit_embed fuel rest
    pure ((x, none) :: rest2)
  | (x, some w) :: rest => do
    let n ← tot_normalize fuel w
    let rest2 ← union_lit_embed fuel rest
    pure ((x, some (.embed n)) :: rest2)

mutual
/-- The typing judgement (`type_with`, lines 678-743): `Lam`, `Pi`,
`Let` and `Embed` are handled directly; every other constructor has its
subexpressions typechecked recursively and is finished by
`type_last_layer`.  A `RetExpr` result is itself typechecked and turned
into a type. -/
def type_with : Nat → TcCtx → Expr → TcR TypedOrType
  | 0, _, _ => .nofuel
  | fuel + 1, ctx, e => do
    let ret ← match e with
      | .lam x t b => do
        let tx ← mktype fuel ctx t
        let ctx2 ← insert_type fuel ctx x tx
        let bt ← type_with fuel ctx2 b
        let b2 ← tot_into_typed fuel bt
        let tb ← typed_get_type b2
        let r ← ti_typecheck fuel (.pi ctx x tx tb)
        let r2 ← tot_normalize_to_type fuel r
        pure (Ret.retType r2)
      | .pi x ta tb => do
        let ta2 ← mktype fuel ctx ta
        let ctx2 ← insert_type fuel ctx x ta2
        let tb2 ← mktype fuel ctx2 tb
        let r ← ti_typecheck fuel (.pi ctx x ta2 tb2)
        pure (Ret.retTypedOrType r)
      | .let_ x t v b => do
        let v2 := match t with
          | some ta => Expr.annot v ta
          | none => v
        let vt ← type_with fuel ctx v2
        let vtt ← tot_into_typed fuel vt
        let vn ← typed_normalize fuel vtt
        let ctx2 ← insert_value fuel ctx x vn
        let bt ← type_with fuel ctx2 b
        let b2 ← tot_into_typed fuel bt
        let te ← typed_get_type b2
        pure (Ret.retType te)
      | .embed p => pure (Ret.retTypedOrType (.typed (norm_to_typed p)))
      | _ => do
        let layer ← type_with_children fuel ctx e
        type_last_layer fuel ctx layer e
    match ret with
    | .retExpr rex => do
      let t ← mktype fuel ctx rex
      pure (.typed ⟨e, some t, ctx⟩)
    | .retType t => pure (.typed ⟨e, some t, ctx⟩)
    | .retTypedOrType tt => pure tt
/-- The generic subexpression traversal of the default arm of
`type_with` (`traverse_ref_simple`, line 724): every child is
typechecked in order, short-circuiting on the first failure. -/
def type_with_children : Nat → TcCtx → Expr → TcR ExprLayer
  | 0, _, _ => .nofuel
  | fuel + 1, ctx, e =>
    match e with
    | .var v => pure (.var v)
    | .lam x t b => do
      let t2 ← type_with fuel ctx t
      let b2 ← type_with fuel ctx b
      pure (.lam x t2 b2)
    | .pi x t b => do
      let t2 ← type_with fuel ctx t
      let b2 ← type_with fuel ctx b
      pure (.pi x t2 b2)
    | .app f a => do
      let f2 ← type_with fuel ctx f
      let a2 ← type_with fuel ctx a
      pure (.app f2 a2)
    | .let_ x t? v b => do
      let t2 ← match t? with
        | some t => do
          let t3 ← type_with fuel ctx t
          pure (some t3)
        | none => pure none
      let v2 ← type_with fuel ctx v
      let b2 ← type_with fuel ctx b
      pure (.let_ x t2 v2 b2)
    | .annot a t => do
      let a2 ← type_with fuel ctx a
      let t2 ← type_with fuel ctx t
      pure (.annot a2 t2)
    | .const c => pure (.const c)
    | .builtin b => pure (.builtin b)
    | .boolLit b => pure (.boolLit b)
    | .naturalLit n => pure (.naturalLit n)
    | .integerLit i => pure (.integerLit i)
    | .doubleLit n => pure (.doubleLit n)
    | .textLit ps => do
      let ps2 ← tw_text fuel ctx ps
      pure (.textLit ps2)
    | .boolIf c t e2 => do
      let c2 ← type_with fuel ctx c
      let t2 ← type_with fuel ctx t
      let e3 ← type_with fuel ctx e2
      pure (.boolIf c2 t2 e3)
    | .emptyListLit t => do
      let t2 ← type_with fuel ctx t
      pure (.emptyListLit t2)
    | .neListLit xs => do
      let xs2 ← tw_list fuel ctx xs
      pure (.neListLit xs2)
    | .oldOptionalLit o t => do
      let o2 ← match o with
        | some v => do
          let v2 ← type_with fuel ctx v
          pure (some v2)
        | none => pure none
      let t2 ← type_with fuel ctx t
      pure (.oldOptionalLit o2 t2)
    | .someLit a => do
      let a2 ← type_with fuel ctx a
      pure (.someLit a2)
    | .recordType kts => do
      let kts2 ← tw_kts fuel ctx kts
      pure (.recordType kts2)
    | .recordLit kvs => do
      let kvs2 ← tw_kts fuel ctx kvs
      pure (.recordLit kvs2)
    | .unionType kts => do
      let kts2 ← tw_opt_kts fuel ctx kts
      pure (.unionType kts2)
    | .unionLit x v kvs => do
      let v2 ← type_with fuel ctx v
      let kvs2 ← tw_opt_kts fuel ctx kvs
      pure (.unionLit x v2 kvs2)
    | .field r x => do
      let r2 ← type_with fuel ctx r
      pure (.field r2 x)
    | .binOp o l r => do
      let l2 ← type_with fuel ctx l
      let r2 ← type_with fuel ctx r
      pure (.binOp o l2 r2)
    | .embed n => pure (.embed n)
/-- Child traversal of a list of terms. -/
def tw_list : Nat → TcCtx → List Expr → TcR (List TypedOrType)
  | 0, _, _ => .nofuel
  | _ + 1, _, [] => pure []
  | fuel + 1, ctx, x :: rest => do
    let x2 ← type_with fuel ctx x
    let rest2 ← tw_list fuel ctx rest
    pure (x2 :: rest2)
/-- Child traversal of a labelled association list. -/
def tw_kts : Nat → TcCtx → List (Label × Expr) → TcR (List (Label × TypedOrType))
  | 0, _, _ => .nofuel
  | _ + 1, _, [] => pure []
  | fuel + 1, ctx, (k, t) :: rest => do
    let t2 ← type_with fuel ctx t
    let rest2 ← tw_kts fuel ctx rest
    pure ((k, t2) :: rest2)
/-- Child traversal of a labelled association list of optional terms. -/
def tw_opt_kts : Nat → TcCtx → List (Label × Option Expr) → TcR (List (Label × Option TypedOrType))
  | 0, _, _ => .nofuel
  | _ + 1, _, [] => pure []
  | fuel + 1, ctx, (k, none) :: rest => do
    let rest2 ← tw_opt_kts fuel ctx rest
    pure ((k, none) :: rest2)
  | fuel + 1, ctx, (k, some t) :: rest => do
    let t2 ← type_with fuel ctx t
    let rest2 ← tw_opt_kts fuel ctx rest
    pure ((k, some t2) :: rest2)
/-- Child traversal of interpolated text pieces. -/
def tw_text : Nat → TcCtx → List (Sum String Expr) → TcR (List (Sum String TypedOrType))
  | 0, _, _ => .nofuel
  | _ + 1, _, [] => pure []
  | fuel + 1, ctx, .inl s :: rest => do
    let rest2 ← tw_text fuel ctx rest
    pure (.inl s :: rest2)
  | fuel + 1, ctx, .inr e :: rest => do
    let e2 ← type_with fuel ctx e
    let rest2 ← tw_text fuel ctx rest
    pure (.inr e2 :: rest2)
/-- The per-constructor typing rules on a layer with typed children
(`type_last_layer`, lines 747-1018), in source order.  The `Lam`, `Pi`,
`Let` and `Embed` arms are the source's `unreachable!()` panics. -/
def type_last_layer : Nat → TcCtx → ExprLayer → Expr → TcR Ret
  | 0, _, _, _ => .nofuel
  | fuel + 1, ctx, layer, orig =>
    match layer with
    | .lam _ _ _ => .panicked
    | .pi _ _ _ => .panicked
    | .let_ _ _ _ _ => .panicked
    | .embed _ => .panicked
    | .var v =>
      match tc_lookup ctx v with
      | some t => pure (.retType t)
      | none => .err ⟨ctx, orig, .unboundVariable v⟩
    | .app f a => do
      let tf ← tot_get_type f
      match tf.internal with
      | .pi _ _ x tx tb => do
        let ta ← tot_get_type a
        let r ← prop_equal fuel ta tx
        if r then do
          let an ← tot_normalize fuel a
          let tbn ← into_normalized fuel tb.internal
          pure (.retExpr (.let_ x none (.embed an) tbn.expr))
        else do
          let txn ← into_normalized fuel tx.internal
          TcR.err ⟨ctx, orig, .typeMismatch f txn a⟩
      | _ => .err ⟨ctx, orig, .notAFunction f⟩
    | .annot x t => do
      let t2 ← tot_normalize_to_type fuel t
      let tx ← tot_get_type x
      let r ← prop_equal fuel t2 tx
      if r then do
        let ty ← tot_get_type_move x
        pure (.retType ty)
      else do
        let tn ← into_normalized fuel t2.internal
        TcR.err ⟨ctx, orig, .annotMismatch x tn⟩
    | .boolIf x y z => do
      let txx ← tot_get_type x
      let r1 ← prop_equal fuel txx (simple_type_from_builtin .bool)
      if !r1 then .err ⟨ctx, orig, .invalidPredicate x⟩
      else do
        let ty ← tot_get_type y
        let tyt ← ty_get_type ty
        match tyt.internal with
        | .const .type => do
          let tz ← tot_get_type z
          let tzt ← ty_get_type tz
          match tzt.internal with
          | .const .type => do
            let ty2 ← tot_get_type y
            let tz2 ← tot_get_type z
            let r2 ← prop_equal fuel ty2 tz2
            if r2 then do
              let tym ← tot_get_type_move y
              pure (.retType tym)
            else .err ⟨ctx, orig, .ifBranchMismatch y z⟩
          | _ => .err ⟨ctx, orig, .ifBranchMustBeTerm false z⟩
        | _ => .err ⟨ctx, orig, .ifBranchMustBeTerm true y⟩
    | .emptyListLit t => do
      let t2 ← tot_normalize_to_type fuel t
      let tt ← ty_get_type t2
      match tt.internal with
      | .const .type => do
        let tn ← into_normalized fuel t2.internal
        pure (.retExpr (.app (.builtin .list) (.embed tn)))
      | _ => do
        let tn ← into_normalized fuel t2.internal
        TcR.err ⟨ctx, orig, .invalidListType tn⟩
    | .neListLit xs =>
      match xs with
      | [] => .panicked
      | x :: rest => do
        let tx ← tot_get_type x
        let txt ← ty_get_type tx
        match txt.internal with
        | .const .type => do
          let _ ← ne_list_fold fuel ctx orig x rest 1
          let t ← tot_get_type_move x
          let tn ← into_normalized fuel t.internal
          pure (.retExpr (.app (.builtin .list) (.embed tn)))
        | _ => do
          let txm ← tot_get_type_move x
          let txn ← into_normalized fuel txm.internal
          TcR.err ⟨ctx, orig, .invalidListType txn⟩
    | .oldOptionalLit none t => do
      let tn ← tot_normalize fuel t
      let e2 := Expr.app (.builtin .optionalNone) (.embed tn)
      let r ← type_with fuel ctx e2
      let r2 ← tot_into_typed fuel r
      let ty ← typed_get_type r2
      pure (.retType ty)
    | .oldOptionalLit (some x) t => do
      let tn ← tot_normalize fuel t
      let xn ← tot_normalize fuel x
      let e2 := Expr.annot (.someLit (.embed xn)) (.app (.builtin .optional) (.embed tn))
      let r ← type_with fuel ctx e2
      let r2 ← tot_into_typed fuel r
      let ty ← typed_get_type r2
      pure (.retType ty)
    | .someLit x => do
      let tx ← tot_get_type_move x
      let txt ← ty_get_type tx
      match txt.internal with
      | .const .type => do
        let tn ← into_normalized fuel tx.internal
        pure (.retExpr (.app (.builtin .optional) (.embed tn)))
      | _ => do
        let tn ← into_normalized fuel tx.internal
        TcR.err ⟨ctx, orig, .invalidOptionalType tn⟩
    | .recordType kts => do
      let kts2 ← record_type_norm fuel kts
      let r ← ti_typecheck fuel (.recordType ctx kts2)
      pure (.retTypedOrType r)
    | .unionType kts => do
      let k ← union_type_fold fuel ctx orig kts none
      pure (.retType (const_to_type (k.getD .type)))
    | .recordLit kvs => do
      let kts ← record_lit_types fuel kvs
      let r ← ti_typecheck fuel (.recordType ctx kts)
      let t ← tot_normalize_to_type fuel r
      pure (.retType t)
    | .unionLit x v kvs => do
      let kts ← union_lit_embed fuel kvs
      let tv ← tot_get_type_move v
      let tn ← into_normalized fuel tv.internal
      pure (.retExpr (.unionType (map_insert x (some (.embed tn)) kts)))
    | .field r x => do
      let tr ← tot_get_type r
      let trn ← into_normalized fuel tr.internal
      match trn.expr with
      | .recordType kts =>
        match kts.lookup x with
        | some t => pure (.retExpr t)
        | none => .err ⟨ctx, orig, .missingRecordField x r⟩
      | _ => do
        let r2 ← tot_normalize_to_type fuel r
        let rn ← into_normalized fuel r2.internal
        match rn.expr with
        | .unionType kts =>
          match kts.lookup x with
          | some (some t) => do
            let mt ← mktype fuel ctx t
            let p ← ti_typecheck fuel (.pi ctx x mt r2)
            let pt ← tot_normalize_to_type fuel p
            pure (.retType pt)
          | some none => pure (.retType r2)
          | none => do
            let n ← into_normalized fuel r2.internal
            TcR.err ⟨ctx, orig, .missingUnionField x n⟩
        | _ => do
          let n ← into_normalized fuel r2.internal
          TcR.err ⟨ctx, orig, .notARecord x n⟩
    | .const c => pure (.retType (type_of_const c))
    | .builtin b => pure (.retExpr (type_of_builtin b))
    | .boolLit _ => pure (.retType (simple_type_from_builtin .bool))
    | .naturalLit _ => pure (.retType (simple_type_from_builtin .natural))
    | .integerLit _ => pure (.retType (simple_type_from_builtin .integer))
    | .doubleLit _ => pure (.retType (simple_type_from_builtin .double))
    | .textLit _ => pure (.retType (simple_type_from_builtin .text))
    | .binOp .listAppend l r => do
      let tl ← tot_get_type l
      let tln ← into_normalized fuel tl.internal
      match tln.expr with
      | .app f _ =>
        match f with
        | .builtin .list => do
          let tl2 ← tot_get_type l
          let tr ← tot_get_type r
          let req ← prop_equal fuel tl2 tr
          if req then do
            let tl3 ← tot_get_type l
            pure (.retType tl3)
          else .err ⟨ctx, orig, .binOpTypeMismatch .listAppend r⟩
        | _ => .err ⟨ctx, orig, .binOpTypeMismatch .listAppend l⟩
      | _ => .err ⟨ctx, orig, .binOpTypeMismatch .listAppend l⟩
    | .binOp o l r => do
      let b ← match o with
        | .boolAnd => pure Builtin.bool
        | .boolOr => pure Builtin.bool
        | .boolEQ => pure Builtin.bool
        | .boolNE => pure Builtin.bool
        | .naturalPlus => pure Builtin.natural
        | .naturalTimes => pure Builtin.natural
        | .textAppend => pure Builtin.text
        | .listAppend => TcR.panicked
        | _ => TcR.err ⟨ctx, orig, .unimplemented⟩
      let t := simple_type_from_builtin b
      let tl ← tot_get_type l
      let r1 ← prop_equal fuel tl t
      if !r1 then .err ⟨ctx, orig, .binOpTypeMismatch o l⟩
      else do
        let tr ← tot_get_type r
        let r2 ← prop_equal fuel tr t
        if !r2 then .err ⟨ctx, orig, .binOpTypeMismatch o r⟩
        else pure (.retType t)
/-- Normalisation of record-field types in the `RecordType` rule
(lines 879-883). -/
def record_type_norm : Nat → List (Label × TypedOrType) → TcR (List (Label × Ty))
  | 0, _ => .nofuel
  | _ + 1, [] => pure []
  | fuel + 1, (x, t) :: rest => do
    let t2 ← tot_normalize_to_type fuel t
    let rest2 ← record_type_norm fuel rest
    pure ((x, t2) :: rest2)
/-- Reduction of a `TypedOrType` to a semantic type
(`normalize_to_type`, lines 233-241). -/
def tot_normalize_to_type : Nat → TypedOrType → TcR Ty
  | 0, _ => .nofuel
  | fuel + 1, tt =>
    match tt with
    | .typed e => do
      let n ← typed_normalize fuel e
      into_type_ctx fuel e.ctx n
    | .type t => pure t
/-- Conversion of a normalised term to a semantic type
(`into_type_ctx`, lines 65-76): constants become the `Const` internal, a
`Pi` is re-typechecked, and everything else is wrapped as an expression
internal. -/
def into_type_ctx : Nat → TcCtx → Normalized → TcR Ty
  | 0, _, _ => .nofuel
  | fuel + 1, ctx, n =>
    match n.expr with
    | .const c => pure (.mk (.const c))
    | .pi _ _ _ => do
      let tt ← type_with fuel ctx n.expr
      tot_normalize_to_type fuel tt
    | _ => pure (.mk (.expr n))
/-- Typechecking of an expression that is meant to contain a type
(`mktype`, lines 650-655). -/
def mktype : Nat → TcCtx → Expr → TcR Ty
  | 0, _, _ => .nofuel
  | fuel + 1, ctx, e => do
    let tt ← type_with fuel ctx e
    tot_normalize_to_type fuel tt
end

/-- The closed-term entry point (`type_of`, lines 1024-1032): typecheck
in the empty context and reject an inferred type that cannot be
normalised — which is exactly the `SuperType` sentinel (`Untyped`). -/
def type_of : Nat → Expr → TcR Typed
  | 0, _ => .nofuel
  | fuel + 1, e => do
    let tt ← type_with fuel [] e
    let t ← tot_into_typed fuel tt
    let ty ← typed_get_type t
    let _ ← into_normalized fuel ty.internal
    pure t

/-- The public entry point (`Resolved::typecheck`, lines 17-20).
`unnote` is the identity in this embedding, which carries no `Note`
wrappers. -/
def typecheck (fuel : Nat) (e : Expr) : TcR Typed :=
  type_of fuel e

/-- The checking-mode entry point (`Resolved::typecheck_with`,
lines 21-28): the expected type is embedded into an expression
(`Type::embed`, an `Embed` of its normalised form) and the annotated
term is typechecked. -/
def typecheck_with (fuel : Nat) (e : Expr) (ty : Ty) : TcR Typed :=
  match into_normalized fuel ty.internal with
  | .ok n => type_of fuel (.annot e (.embed n))
  | .err er => .err er
  | .panicked => .panicked
  | .nofuel => .nofuel

/-- The surface name of each builtin.
Modelled from the spec: the builtin names of §3.1 as they appear in
source syntax. -/
def builtin_name : Builtin → String
  | .bool => "Bool"
  | .natural => "Natural"
  | .integer => "Integer"
  | .double => "Double"
  | .text => "Text"
  | .list => "List"
  | .optional => "Optional"
  | .naturalFold => "Natural/fold"
  | .naturalBuild => "Natural/build"
  | .naturalIsZero => "Natural/isZero"
  | .naturalEven => "Natural/even"
  | .naturalOdd => "Natural/odd"
  | .listBuild => "List/build"
  | .listFold => "List/fold"
  | .listLength => "List/length"
  | .listHead => "List/head"
  | .listLast => "List/last"
  | .listIndexed => "List/indexed"
  | .listReverse => "List/reverse"
  | .optionalFold => "Optional/fold"
  | .optionalNone => "Optional/none"

/-- The full builtin enumeration as a list. -/
def all_builtins : List Builtin :=
  [.bool, .natural, .integer, .double, .text, .list, .optional,
   .naturalFold, .naturalBuild, .naturalIsZero, .naturalEven, .naturalOdd,
   .listBuild, .listFold, .listLength, .listHead, .listLast, .listIndexed,
   .listReverse, .optionalFold, .optionalNone]

/-- Recognition of a builtin name (`Builtin::parse`).
Modelled from the spec: the inverse of the builtin naming of §3.1. -/
def builtin_parse (s : String) : Option Builtin :=
  all_builtins.find? (fun b => builtin_name b == s)

/-- The reserved-word test of `fmt_label` (printer.rs lines 152-156): a
fixed keyword list, then the builtin names. -/
def is_reserved (s : String) : Bool :=
  if s = "let" ∨ s = "in" ∨ s = "if" ∨ s = "then" ∨ s = "else" ∨ s = "Type" ∨
     s = "Kind" ∨ s = "Sort" ∨ s = "True" ∨ s = "False" ∨ s = "Some" then true
  else (builtin_parse s).isSome

/-- The character class a label may use unquoted (printer.rs line 160):
ASCII alphanumeric or underscore.  `Char.isAlphanum` is exactly the
ASCII test Rust's `is_ascii_alphanumeric` performs. -/
def label_simple_char (c : Char) : Bool :=
  c.isAlphanum || c = '_'

/-- Label printing (`fmt_label`, printer.rs lines 149-166): an empty
label prints as a bare pair of backticks; a non-reserved label of simple
characters prints verbatim; everything else is surrounded by
backticks. -/
def fmt_label (s : String) : String :=
  if s.isEmpty then "``"
  else if !is_reserved s && s.all label_simple_char then s
  else "`" ++ s ++ "`"

/-- The quoting condition exactly as the specification words it: quoted
iff empty, reserved, or containing a character that is not alphanumeric
or underscore (spec §6.2). -/
def spec_needs_backticks (s : String) : Bool :=
  s.isEmpty || is_reserved s || !(s.all label_simple_char)

/-- A span of parsed input (`ParsedSpan`, span.rs lines 4-15).  The
`Rc<str>` input is represented by an allocation identity token: two
spans have pointer-identical inputs exactly when their tokens agree.
The byte offsets `start`/`end` are plain naturals (`end` is a Lean
keyword, so the field is named `stop`). -/
structure ParsedSpan where
  input : Nat
  start : Nat
  stop : Nat
deriving DecidableEq

/-- Provenance tags (`Span`, span.rs lines 17-28). -/
inductive Span where
| parsed : ParsedSpan → Span
| duplicateRecordFieldsSugar : Span
| dottedFieldSugar : Span
| decoded : Span
| artificial : Span
deriving DecidableEq

/-- Union of two spans (`Span::union`, span.rs lines 56-72): for two
parsed spans over the pointer-identical input, the covering range;
every other combination is the `panic!` in the wildcard arm, which is
the `none` outcome here. -/
def Span.union : Span → Span → Option Span
  | .parsed x, .parsed y =>
    if x.input = y.input then
      some (.parsed ⟨x.input, min x.start y.start, max x.stop y.stop⟩)
    else none
  | _, _ => none

mutual
/-- Size of a term driving the α-equivalence induction: positive
everywhere, recursive exactly where `go` recurses. -/
def esize : Expr → Nat
  | .pi _ t b => esize t + esize b + 1
  | .app f a => esize f + esize a + 1
  | .recordType kts => esizeK kts + 1
  | .unionType kts => esizeU kts + 1
  | _ => 1
/-- Size of a record-type association list. -/
def esizeK : List (Label × Expr) → Nat
  | [] => 0
  | (_, t) :: rest => esize t + esizeK rest + 1
/-- Size of a union-type association list. -/
def esizeU : List (Label × Option Expr) → Nat
  | [] => 0
  | (_, none) :: rest => esizeU rest + 1
  | (_, some t) :: rest => esize t + esizeU rest + 1
end

theorem esize_pos : ∀ e, 1 ≤ esize e := by
  intro e
  cases e <;> simp [esize]

theorem db_bump_inj {u v : Sum Nat (Label × Nat)} (h : db_bump u = db_bump v) : u = v := by
  cases u <;> cases v <;> simp [db_bump] at h ⊢ <;> simp_all

theorem db_bump_ne_inl_zero (u : Sum Nat (Label × Nat)) : db_bump u ≠ .inl 0 := by
  cases u <;> simp [db_bump]

theorem db_bump_eq_iff (u v : Sum Nat (Label × Nat)) :
    db_bump u = db_bump v ↔ u = v :=
  ⟨db_bump_inj, fun h => by rw [h]⟩

/-- Correspondence between one run of `match_vars` and the independent
scans of its two sides: the variables match exactly when the two scans
land on the same result. -/
theorem match_vars_scan :
    ∀ (l : List (Label × Label)) (x1 x2 : Label) (n1 n2 : Nat),
      match_vars ⟨x1, n1⟩ ⟨x2, n2⟩ l = some true ↔
        v_scan x1 n1 (l.map Prod.fst) = v_scan x2 n2 (l.map Prod.snd) := by
  intro l
  induction l with
  | nil =>
    intro x1 x2 n1 n2
    constructor
    · intro h
      simp [match_vars] at h
      simp [v_scan, h.1, h.2]
    · intro h
      simp [v_scan] at h
      simp [match_vars, h.1, h.2]
  | cons hd rest ih =>
    obtain ⟨y1, y2⟩ := hd
    intro x1 x2 n1 n2
    by_cases hl : x1 = y1
    · subst hl
      by_cases hr : x2 = y2
      · subst hr
        by_cases hln : n1 = 0
        · subst hln
          by_cases hrn : n2 = 0
          · subst hrn
            simp [match_vars, v_scan]
          · simp [match_vars, v_scan, hrn]
            intro h
            exact db_bump_ne_inl_zero _ h.symm
        · by_cases hrn : n2 = 0
          · subst hrn
            simp [match_vars, v_scan, hln]
            intro h
            exact db_bump_ne_inl_zero _ h
          · simp [match_vars, v_scan, hln, hrn, db_bump_eq_iff]
            exact ih x1 x2 (n1 - 1) (n2 - 1)
      · by_cases hln : n1 = 0
        · subst hln
          simp [match_vars, v_scan, hr]
          intro h
          exact db_bump_ne_inl_zero _ h.symm
        · simp [match_vars, v_scan, hr, hln, db_bump_eq_iff]
          exact ih x1 x2 (n1 - 1) n2
    · by_cases hr : x2 = y2
      · subst hr
        by_cases hrn : n2 = 0
        · subst hrn
          simp [match_vars, v_scan, hl]
          intro h
          exact db_bump_ne_inl_zero _ h
        · simp [match_vars, v_scan, hl, hrn, db_bump_eq_iff]
          exact ih x1 x2 n1 (n2 - 1)
      · simp [match_vars, v_scan, hl, hr, db_bump_eq_iff]
        exact ih x1 x2 n1 n2

theorem var_db_ne_const (v : V) (L : List Label) (c : Const) :
    var_db v L ≠ .const c := by
  unfold var_db
  cases v_scan v.x v.n L with
  | inl p => simp
  | inr f => obtain ⟨x, m⟩ := f; simp

theorem var_db_ne_builtin (v : V) (L : List Label) (b : Builtin) :
    var_db v L ≠ .builtin b := by
  unfold var_db
  cases v_scan v.x v.n L with
  | inl p => simp
  | inr f => obtain ⟨x, m⟩ := f; simp

theorem var_db_ne_pi (v : V) (L : List Label) (t b : DB) :
    var_db v L ≠ .pi t b := by
  unfold var_db
  cases v_scan v.x v.n L with
  | inl p => simp
  | inr f => obtain ⟨x, m⟩ := f; simp

theorem var_db_ne_app (v : V) (L : List Label) (t b : DB) :
    var_db v L ≠ .app t b := by
  unfold var_db
  cases v_scan v.x v.n L with
  | inl p => simp
  | inr f => obtain ⟨x, m⟩ := f; simp

theorem var_db_ne_recordType (v : V) (L : List Label) (ds : List (Label × DB)) :
    var_db v L ≠ .recordType ds := by
  unfold var_db
  cases v_scan v.x v.n L with
  | inl p => simp
  | inr f => obtain ⟨x, m⟩ := f; simp

theorem var_db_ne_unionType (v : V) (L : List Label) (ds : List (Label × Option DB)) :
    var_db v L ≠ .unionType ds := by
  unfold var_db
  cases v_scan v.x v.n L with
  | inl p => simp
  | inr f => obtain ⟨x, m⟩ := f; simp

theorem var_db_eq_iff (v1 v2 : V) (L1 L2 : List Label) :
    var_db v1 L1 = var_db v2 L2 ↔
      v_scan v1.x v1.n L1 = v_scan v2.x v2.n L2 := by
  unfold var_db
  cases h1 : v_scan v1.x v1.n L1 with
  | inl p =>
    cases h2 : v_scan v2.x v2.n L2 with
    | inl q => simp
    | inr f => obtain ⟨x, m⟩ := f; simp
  | inr f =>
    obtain ⟨x, m⟩ := f
    cases h2 : v_scan v2.x v2.n L2 with
    | inl q => simp
    | inr f2 => obtain ⟨x2, m2⟩ := f2; simp [Prod.ext_iff]

theorem and_then_eq_some_true (o1 o2 : Option Bool) :
    and_then o1 o2 = some true ↔ o1 = some true ∧ o2 = some true := by
  cases o1 with
  | none => simp [and_then]
  | some b => cases b <;> simp [and_then]

theorem toDB_pi_eq (L : List Label) (x : Label) (t b : Expr) (d : DB) :
    toDB L (.pi x t b) = some d ↔
      ∃ dt db2, toDB L t = some dt ∧ toDB (L ++ [x]) b = some db2 ∧ d = .pi dt db2 := by
  simp only [toDB]
  cases toDB L t <;> cases toDB (L ++ [x]) b <;> simp
  exact ⟨fun h => h.symm, fun h => h.symm⟩

theorem toDB_app_eq (L : List Label) (f a : Expr) (d : DB) :
    toDB L (.app f a) = some d ↔
      ∃ df da, toDB L f = some df ∧ toDB L a = some da ∧ d = .app df da := by
  simp only [toDB]
  cases toDB L f <;> cases toDB L a <;> simp
  exact ⟨fun h => h.symm, fun h => h.symm⟩

theorem toDB_recordType_eq (L : List Label) (kts : List (Label × Expr)) (d : DB) :
    toDB L (.recordType kts) = some d ↔
      ∃ ds, toDB_kts L kts = some ds ∧ d = .recordType ds := by
  simp only [toDB]
  cases toDB_kts L kts <;> simp
  exact ⟨fun h => h.symm, fun h => h.symm⟩

theorem toDB_unionType_eq (L : List Label) (kts : List (Label × Option Expr)) (d : DB) :
    toDB L (.unionType kts) = some d ↔
      ∃ ds, toDB_opt_kts L kts = some ds ∧ d = .unionType ds := by
  simp only [toDB]
  cases toDB_opt_kts L kts <;> simp
  exact ⟨fun h => h.symm, fun h => h.symm⟩

theorem toDB_kts_cons_eq (L : List Label) (k : Label) (t : Expr)
    (rest : List (Label × Expr)) (ds : List (Label × DB)) :
    toDB_kts L ((k, t) :: rest) = some ds ↔
      ∃ d ds2, toDB L t = some d ∧ toDB_kts L rest = some ds2 ∧ ds = (k, d) :: ds2 := by
  simp only [toDB_kts]
  cases toDB L t <;> cases toDB_kts L rest <;> simp
  exact ⟨fun h => h.symm, fun h => h.symm⟩

theorem toDB_kts_length :
    ∀ (l : List (Label × Expr)) (L : List Label) (ds : List (Label × DB)),
      toDB_kts L l = some ds → ds.length = l.length := by
  intro l
  induction l with
  | nil =>
    intro L ds h
    simp [toDB_kts] at h
    simp [← h]
  | cons hd rest ih =>
    obtain ⟨k, t⟩ := hd
    intro L ds h
    rw [toDB_kts_cons_eq] at h
    obtain ⟨d, ds2, _, h2, h3⟩ := h
    subst h3
    simp [ih L ds2 h2]

theorem toDB_opt_kts_length :
    ∀ (l : List (Label × Option Expr)) (L : List Label) (ds : List (Label × Option DB)),
      toDB_opt_kts L l = some ds → ds.length = l.length := by
  intro l
  induction l with
  | nil =>
    intro L ds h
    simp [toDB_opt_kts] at h
    simp [← h]
  | cons hd rest ih =>
    obtain ⟨k, t?⟩ := hd
    intro L ds h
    cases t? with
    | none =>
      simp only [toDB_opt_kts] at h
      cases h2 : toDB_opt_kts L rest with
      | none => rw [h2] at h; simp at h
      | some ds2 =>
        rw [h2] at h
        simp at h
        subst h
        simp [ih L ds2 h2]
    | some t =>
      simp only [toDB_opt_kts] at h
      cases h1 : toDB L t with
      | none => rw [h1] at h; simp at h
      | some d =>
        cases h2 : toDB_opt_kts L rest with
        | none => rw [h1, h2] at h; simp at h
        | some ds2 =>
          rw [h1, h2] at h
          simp at h
          subst h
          simp [ih L ds2 h2]

theorem toDB_const_eq (L : List Label) (c : Const) :
    toDB L (.const c) = some (.const c) := by simp [toDB]

theorem toDB_builtin_eq (L : List Label) (b : Builtin) :
    toDB L (.builtin b) = some (.builtin b) := by simp [toDB]

theorem toDB_var_eq (L : List Label) (v : V) :
    toDB L (.var v) = some (var_db v L) := by simp [toDB]

theorem toDB_lam (L : List Label) (x : Label) (t b : Expr) :
    toDB L (.lam x t b) = none := by simp [toDB]

theorem toDB_let (L : List Label) (x : Label) (t : Option Expr) (v b : Expr) :
    toDB L (.let_ x t v b) = none := by simp [toDB]

theorem toDB_annot (L : List Label) (a t : Expr) :
    toDB L (.annot a t) = none := by simp [toDB]

theorem toDB_boolLit (L : List Label) (b : Bool) :
    toDB L (.boolLit b) = none := by simp [toDB]

theorem toDB_naturalLit (L : List Label) (n : Nat) :
    toDB L (.naturalLit n) = none := by simp [toDB]

theorem toDB_integerLit (L : List Label) (i : Int) :
    toDB L (.integerLit i) = none := by simp [toDB]

theorem toDB_doubleLit (L : List Label) (n : Nat) :
    toDB L (.doubleLit n) = none := by simp [toDB]

theorem toDB_textLit (L : List Label) (ps : List (Sum String Expr)) :
    toDB L (.textLit ps) = none := by simp [toDB]

theorem toDB_boolIf (L : List Label) (c t e : Expr) :
    toDB L (.boolIf c t e) = none := by simp [toDB]

theorem toDB_emptyListLit (L : List Label) (t : Expr) :
    toDB L (.emptyListLit t) = none := by simp [toDB]

theorem toDB_neListLit (L : List Label) (xs : List Expr) :
    toDB L (.neListLit xs) = none := by simp [toDB]

theorem toDB_oldOptionalLit (L : List Label) (o : Option Expr) (t : Expr) :
    toDB L (.oldOptionalLit o t) = none := by simp [toDB]

theorem toDB_someLit (L : List Label) (a : Expr) :
    toDB L (.someLit a) = none := by simp [toDB]

theorem toDB_recordLit (L : List Label) (kvs : List (Label × Expr)) :
    toDB L (.recordLit kvs) = none := by simp [toDB]

theorem toDB_unionLit (L : List Label) (x : Label) (v : Expr)
    (kvs : List (Label × Option Expr)) :
    toDB L (.unionLit x v kvs) = none := by simp [toDB]

theorem toDB_field (L : List Label) (r : Expr) (x : Label) :
    toDB L (.field r x) = none := by simp [toDB]

theorem toDB_binOp (L : List Label) (o : BinOp) (l r : Expr) :
    toDB L (.binOp o l r) = none := by simp [toDB]

theorem toDB_embed (L : List Label) (n : Normalized) :
    toDB L (.embed n) = none := by simp [toDB]

theorem toDB_opt_kts_cons_none_eq (L : List Label) (k : Label)
    (rest : List (Label × Option Expr)) (ds : List (Label × Option DB)) :
    toDB_opt_kts L ((k, none) :: rest) = some ds ↔
      ∃ ds2, toDB_opt_kts L rest = some ds2 ∧ ds = (k, none) :: ds2 := by
  simp only [toDB_opt_kts]
  cases toDB_opt_kts L rest <;> simp
  exact ⟨fun h => h.symm, fun h => h.symm⟩

theorem toDB_opt_kts_cons_some_eq (L : List Label) (k : Label) (t : Expr)
    (rest : List (Label × Option Expr)) (ds : List (Label × Option DB)) :
    toDB_opt_kts L ((k, some t) :: rest) = some ds ↔
      ∃ d ds2, toDB L t = some d ∧ toDB_opt_kts L rest = some ds2 ∧
        ds = (k, some d) :: ds2 := by
  simp only [toDB_opt_kts]
  cases toDB L t <;> cases toDB_opt_kts L rest <;> simp
  exact ⟨fun h => h.symm, fun h => h.symm⟩

/-- Record rows: the elementwise `go` loop agrees with elementwise
canonical forms, given the iff for the members. -/
theorem go_kts_toDB_aux (N : Nat)
    (IH : ∀ a, esize a ≤ N → ∀ b ctx,
      (go ctx a b = some true ↔
        ∃ d, toDB (ctx.map Prod.fst) a = some d ∧ toDB (ctx.map Prod.snd) b = some d)) :
    ∀ l1, esizeK l1 ≤ N → ∀ l2 (ctx : List (Label × Label)), l1.length = l2.length →
      (go_kts ctx l1 l2 = some true ↔
        ∃ ds, toDB_kts (ctx.map Prod.fst) l1 = some ds ∧
              toDB_kts (ctx.map Prod.snd) l2 = some ds) := by
  intro l1
  induction l1 with
  | nil =>
    intro _ l2 ctx hlen
    cases l2 with
    | nil => simp [go_kts, toDB_kts]
    | cons hd tl => simp at hlen
  | cons hd r1 ih =>
    obtain ⟨k1, t1⟩ := hd
    intro hsz l2 ctx hlen
    cases l2 with
    | nil => simp at hlen
    | cons hd2 r2 =>
      obtain ⟨k2, t2⟩ := hd2
      simp at hlen
      have ht : esize t1 ≤ N := by simp [esizeK] at hsz; omega
      have hrest : esizeK r1 ≤ N := by simp [esizeK] at hsz; omega
      by_cases hk : k1 = k2
      · subst hk
        simp only [go_kts, if_true]
        rw [and_then_eq_some_true, IH t1 ht t2 ctx, ih hrest r2 ctx hlen]
        constructor
        · rintro ⟨⟨d, h1, h2⟩, ⟨ds, h3, h4⟩⟩
          exact ⟨(k1, d) :: ds,
            (toDB_kts_cons_eq _ _ _ _ _).mpr ⟨d, ds, h1, h3, rfl⟩,
            (toDB_kts_cons_eq _ _ _ _ _).mpr ⟨d, ds, h2, h4, rfl⟩⟩
        · rintro ⟨ds, h1, h2⟩
          rw [toDB_kts_cons_eq] at h1 h2
          obtain ⟨d, ds2, h1a, h1b, h1c⟩ := h1
          obtain ⟨d2, ds3, h2a, h2b, h2c⟩ := h2
          rw [h1c] at h2c
          simp only [List.cons.injEq, Prod.mk.injEq] at h2c
          obtain ⟨⟨_, hd2⟩, hds⟩ := h2c
          subst hd2
          subst hds
          exact ⟨⟨d, h1a, h2a⟩, ⟨ds2, h1b, h2b⟩⟩
      · simp only [go_kts, if_neg hk]
        constructor
        · intro h
          simp at h
        · rintro ⟨ds, h1, h2⟩
          rw [toDB_kts_cons_eq] at h1 h2
          obtain ⟨d, ds2, _, _, h1c⟩ := h1
          obtain ⟨d2, ds3, _, _, h2c⟩ := h2
          rw [h1c] at h2c
          simp only [List.cons.injEq, Prod.mk.injEq] at h2c
          exact (hk h2c.1.1).elim

/-- Union rows: the elementwise `go` loop agrees with elementwise
canonical forms, given the iff for the members. -/
theorem go_opt_kts_toDB_aux (N : Nat)
    (IH : ∀ a, esize a ≤ N → ∀ b ctx,
      (go ctx a b = some true ↔
        ∃ d, toDB (ctx.map Prod.fst) a = some d ∧ toDB (ctx.map Prod.snd) b = some d)) :
    ∀ l1, esizeU l1 ≤ N → ∀ l2 (ctx : List (Label × Label)), l1.length = l2.length →
      (go_opt_kts ctx l1 l2 = some true ↔
        ∃ ds, toDB_opt_kts (ctx.map Prod.fst) l1 = some ds ∧
              toDB_opt_kts (ctx.map Prod.snd) l2 = some ds) := by
  intro l1
  induction l1 with
  | nil =>
    intro _ l2 ctx hlen
    cases l2 with
    | nil => simp [go_opt_kts, toDB_opt_kts]
    | cons hd tl => simp at hlen
  | cons hd r1 ih =>
    obtain ⟨k1, u1⟩ := hd
    intro hsz l2 ctx hlen
    cases l2 with
    | nil => simp at hlen
    | cons hd2 r2 =>
      obtain ⟨k2, u2⟩ := hd2
      simp at hlen
      by_cases hk : k1 = k2
      · subst hk
        cases u1 with
        | none =>
          cases u2 with
          | none =>
            have hrest : esizeU r1 ≤ N := by simp [esizeU] at hsz; omega
            simp only [go_opt_kts, if_true]
            rw [ih hrest r2 ctx hlen]
            constructor
            · rintro ⟨ds, h1, h2⟩
              exact ⟨(k1, none) :: ds,
                (toDB_opt_kts_cons_none_eq _ _ _ _).mpr ⟨ds, h1, rfl⟩,
                (toDB_opt_kts_cons_none_eq _ _ _ _).mpr ⟨ds, h2, rfl⟩⟩
            · rintro ⟨ds, h1, h2⟩
              rw [toDB_opt_kts_cons_none_eq] at h1 h2
              obtain ⟨ds2, h1a, h1b⟩ := h1
              obtain ⟨ds3, h2a, h2b⟩ := h2
              rw [h1b] at h2b
              simp only [List.cons.injEq] at h2b
              obtain ⟨_, hds⟩ := h2b
              subst hds
              exact ⟨ds2, h1a, h2a⟩
          | some t2 =>
            simp only [go_opt_kts, if_true]
            constructor
            · intro h
              simp at h
            · rintro ⟨ds, h1, h2⟩
              rw [toDB_opt_kts_cons_none_eq] at h1
              rw [toDB_opt_kts_cons_some_eq] at h2
              obtain ⟨ds2, _, h1b⟩ := h1
              obtain ⟨d, ds3, _, _, h2c⟩ := h2
              rw [h1b] at h2c
              simp at h2c
        | some t1 =>
          cases u2 with
          | none =>
            simp only [go_opt_kts, if_true]
            constructor
            · intro h
              simp at h
            · rintro ⟨ds, h1, h2⟩
              rw [toDB_opt_kts_cons_some_eq] at h1
              rw [toDB_opt_kts_cons_none_eq] at h2
              obtain ⟨d, ds2, _, _, h1c⟩ := h1
              obtain ⟨ds3, _, h2b⟩ := h2
              rw [h1c] at h2b
              simp at h2b
          | some t2 =>
            have ht : esize t1 ≤ N := by simp [esizeU] at hsz; omega
            have hrest : esizeU r1 ≤ N := by simp [esizeU] at hsz; omega
            simp only [go_opt_kts, if_true]
            rw [and_then_eq_some_true, IH t1 ht t2 ctx, ih hrest r2 ctx hlen]
            constructor
            · rintro ⟨⟨d, h1, h2⟩, ⟨ds, h3, h4⟩⟩
              exact ⟨(k1, some d) :: ds,
                (toDB_opt_kts_cons_some_eq _ _ _ _ _).mpr ⟨d, ds, h1, h3, rfl⟩,
                (toDB_opt_kts_cons_some_eq _ _ _ _ _).mpr ⟨d, ds, h2, h4, rfl⟩⟩
            · rintro ⟨ds, h1, h2⟩
              rw [toDB_opt_kts_cons_some_eq] at h1 h2
              obtain ⟨d, ds2, h1a, h1b, h1c⟩ := h1
              obtain ⟨d2, ds3, h2a, h2b, h2c⟩ := h2
              rw [h1c] at h2c
              simp only [List.cons.injEq, Prod.mk.injEq, Option.some.injEq] at h2c
              obtain ⟨⟨_, hd2⟩, hds⟩ := h2c
              subst hd2
              subst hds
              exact ⟨⟨d, h1a, h2a⟩, ⟨ds2, h1b, h2b⟩⟩
      · cases u1 with
        | none =>
          cases u2 with
          | none =>
            simp only [go_opt_kts, if_neg hk]
            constructor
            · intro h
              simp at h
            · rintro ⟨ds, h1, h2⟩
              rw [toDB_opt_kts_cons_none_eq] at h1 h2
              obtain ⟨ds2, _, h1c⟩ := h1
              obtain ⟨ds3, _, h2c⟩ := h2
              rw [h1c] at h2c
              simp only [List.cons.injEq, Prod.mk.injEq] at h2c
              exact (hk h2c.1.1).elim
          | some t2 =>
            simp only [go_opt_kts, if_neg hk]
            constructor
            · intro h
              simp at h
            · rintro ⟨ds, h1, h2⟩
              rw [toDB_opt_kts_cons_none_eq] at h1
              rw [toDB_opt_kts_cons_some_eq] at h2
              obtain ⟨ds2, _, h1c⟩ := h1
              obtain ⟨d2, ds3, _, _, h2c⟩ := h2
              rw [h1c] at h2c
              simp only [List.cons.injEq, Prod.mk.injEq] at h2c
              exact (hk h2c.1.1).elim
        | some t1 =>
          cases u2 with
          | none =>
            simp only [go_opt_kts, if_neg hk]
            constructor
            · intro h
              simp at h
            · rintro ⟨ds, h1, h2⟩
              rw [toDB_opt_kts_cons_some_eq] at h1
              rw [toDB_opt_kts_cons_none_eq] at h2
              obtain ⟨d, ds2, _, _, h1c⟩ := h1
              obtain ⟨ds3, _, h2c⟩ := h2
              rw [h1c] at h2c
              simp only [List.cons.injEq, Prod.mk.injEq] at h2c
              exact (hk h2c.1.1).elim
          | some t2 =>
            simp only [go_opt_kts, if_neg hk]
            constructor
            · intro h
              simp at h
            · rintro ⟨ds, h1, h2⟩
              rw [toDB_opt_kts_cons_some_eq] at h1 h2
              obtain ⟨d, ds2, _, _, h1c⟩ := h1
              obtain ⟨d2, ds3, _, _, h2c⟩ := h2
              rw [h1c] at h2c
              simp only [List.cons.injEq, Prod.mk.injEq] at h2c
              exact (hk h2c.1.1).elim

set_option maxHeartbeats 2000000 in
theorem go_toDB_aux :
    ∀ (N : Nat) (a : Expr), esize a ≤ N → ∀ (b : Expr) (ctx : List (Label × Label)),
      (go ctx a b = some true ↔
        ∃ d, toDB (ctx.map Prod.fst) a = some d ∧ toDB (ctx.map Prod.snd) b = some d) := by
  intro N
  induction N with
  | zero =>
    intro a ha
    have h := esize_pos a
    omega
  | succ N IH =>
    intro a ha b ctx
    cases a <;> cases b <;>
      first
        | (simp [go, toDB_const_eq, toDB_builtin_eq, toDB_var_eq, toDB_pi_eq, toDB_app_eq,
            toDB_recordType_eq, toDB_unionType_eq, toDB_lam, toDB_let, toDB_annot,
            toDB_boolLit, toDB_naturalLit, toDB_integerLit, toDB_doubleLit, toDB_textLit,
            toDB_boolIf, toDB_emptyListLit, toDB_neListLit, toDB_oldOptionalLit,
            toDB_someLit, toDB_recordLit, toDB_unionLit, toDB_field, toDB_binOp, toDB_embed];
           done)
        | skip
    case const.const c1 c2 =>
      simp only [go, toDB_const_eq, Option.some.injEq, decide_eq_true_eq]
      constructor
      · intro h
        exact ⟨.const c1, rfl, by rw [h]⟩
      · rintro ⟨d, h1, h2⟩
        exact DB.const.inj (h1.trans h2.symm)
    case builtin.builtin c1 c2 =>
      simp only [go, toDB_builtin_eq, Option.some.injEq, decide_eq_true_eq]
      constructor
      · intro h
        exact ⟨.builtin c1, rfl, by rw [h]⟩
      · rintro ⟨d, h1, h2⟩
        exact DB.builtin.inj (h1.trans h2.symm)
    case var.var v1 v2 =>
      obtain ⟨x1, n1⟩ := v1
      obtain ⟨x2, n2⟩ := v2
      simp only [go, toDB_var_eq, Option.some.injEq]
      rw [match_vars_scan]
      constructor
      · intro h
        exact ⟨var_db ⟨x1, n1⟩ (ctx.map Prod.fst), rfl,
          ((var_db_eq_iff ⟨x1, n1⟩ ⟨x2, n2⟩ _ _).mpr h).symm⟩
      · rintro ⟨d, h1, h2⟩
        exact (var_db_eq_iff ⟨x1, n1⟩ ⟨x2, n2⟩ _ _).mp (h1.trans h2.symm)
    case var.const v1 c =>
      simp only [go, toDB_var_eq, toDB_const_eq, Option.some.injEq]
      constructor
      · intro h
        simp at h
      · rintro ⟨d, h1, h2⟩
        exact (var_db_ne_const _ _ _ (h1.trans h2.symm)).elim
    case var.builtin v1 c =>
      simp only [go, toDB_var_eq, toDB_builtin_eq, Option.some.injEq]
      constructor
      · intro h
        simp at h
      · rintro ⟨d, h1, h2⟩
        exact (var_db_ne_builtin _ _ _ (h1.trans h2.symm)).elim
    case var.pi v1 x2 t2 b2 =>
      simp only [go, toDB_var_eq, Option.some.injEq]
      constructor
      · intro h
        simp at h
      · rintro ⟨d, h1, h2⟩
        rw [toDB_pi_eq] at h2
        obtain ⟨dt, db2, _, _, h2c⟩ := h2
        rw [h2c] at h1
        exact (var_db_ne_pi _ _ _ _ h1).elim
    case var.app v1 f2 a2 =>
      simp only [go, toDB_var_eq, Option.some.injEq]
      constructor
      · intro h
        simp at h
      · rintro ⟨d, h1, h2⟩
        rw [toDB_app_eq] at h2
        obtain ⟨df, da, _, _, h2c⟩ := h2
        rw [h2c] at h1
        exact (var_db_ne_app _ _ _ _ h1).elim
    case var.recordType v1 kts2 =>
      simp only [go, toDB_var_eq, Option.some.injEq]
      constructor
      · intro h
        simp at h
      · rintro ⟨d, h1, h2⟩
        rw [toDB_recordType_eq] at h2
        obtain ⟨ds, _, h2c⟩ := h2
        rw [h2c] at h1
        exact (var_db_ne_recordType _ _ _ h1).elim
    case var.unionType v1 kts2 =>
      simp only [go, toDB_var_eq, Option.some.injEq]
      constructor
      · intro h
        simp at h
      · rintro ⟨d, h1, h2⟩
        rw [toDB_unionType_eq] at h2
        obtain ⟨ds, _, h2c⟩ := h2
        rw [h2c] at h1
        exact (var_db_ne_unionType _ _ _ h1).elim
    case const.var c v2 =>
      simp only [go, toDB_const_eq, toDB_var_eq, Option.some.injEq]
      constructor
      · intro h
        simp at h
      · rintro ⟨d, h1, h2⟩
        exact (var_db_ne_const _ _ _ (h2.trans h1.symm)).elim
    case builtin.var c v2 =>
      simp only [go, toDB_builtin_eq, toDB_var_eq, Option.some.injEq]
      constructor
      · intro h
        simp at h
      · rintro ⟨d, h1, h2⟩
        exact (var_db_ne_builtin _ _ _ (h2.trans h1.symm)).elim
    case pi.var x1 t1 b1 v2 =>
      simp only [go, toDB_var_eq, Option.some.injEq]
      constructor
      · intro h
        simp at h
      · rintro ⟨d, h1, h2⟩
        rw [toDB_pi_eq] at h1
        obtain ⟨dt, db2, _, _, h1c⟩ := h1
        rw [h1c] at h2
        exact (var_db_ne_pi _ _ _ _ h2).elim
    case app.var f1 a1 v2 =>
      simp only [go, toDB_var_eq, Option.some.injEq]
      constructor
      · intro h
        simp at h
      · rintro ⟨d, h1, h2⟩
        rw [toDB_app_eq] at h1
        obtain ⟨df, da, _, _, h1c⟩ := h1
        rw [h1c] at h2
        exact (var_db_ne_app _ _ _ _ h2).elim
    case recordType.var kts1 v2 =>
      simp only [go, toDB_var_eq, Option.some.injEq]
      constructor
      · intro h
        simp at h
      · rintro ⟨d, h1, h2⟩
        rw [toDB_recordType_eq] at h1
        obtain ⟨ds, _, h1c⟩ := h1
        rw [h1c] at h2
        exact (var_db_ne_recordType _ _ _ h2).elim
    case unionType.var kts1 v2 =>
      simp only [go, toDB_var_eq, Option.some.injEq]
      constructor
      · intro h
        simp at h
      · rintro ⟨d, h1, h2⟩
        rw [toDB_unionType_eq] at h1
        obtain ⟨ds, _, h1c⟩ := h1
        rw [h1c] at h2
        exact (var_db_ne_unionType _ _ _ h2).elim
    case pi.app x1 t1 b1 f2 a2 =>
      constructor
      · intro h
        simp [go] at h
      · rintro ⟨d, h1, h2⟩
        rw [toDB_pi_eq] at h1
        rw [toDB_app_eq] at h2
        obtain ⟨dt, db2, _, _, h1c⟩ := h1
        obtain ⟨df, da, _, _, h2c⟩ := h2
        rw [h1c] at h2c
        simp at h2c
    case pi.recordType x1 t1 b1 kts2 =>
      constructor
      · intro h
        simp [go] at h
      · rintro ⟨d, h1, h2⟩
        rw [toDB_pi_eq] at h1
        rw [toDB_recordType_eq] at h2
        obtain ⟨dt, db2, _, _, h1c⟩ := h1
        obtain ⟨ds, _, h2c⟩ := h2
        rw [h1c] at h2c
        simp at h2c
    case pi.unionType x1 t1 b1 kts2 =>
      constructor
      · intro h
        simp [go] at h
      · rintro ⟨d, h1, h2⟩
        rw [toDB_pi_eq] at h1
        rw [toDB_unionType_eq] at h2
        obtain ⟨dt, db2, _, _, h1c⟩ := h1
        obtain ⟨ds, _, h2c⟩ := h2
        rw [h1c] at h2c
        simp at h2c
    case app.pi f1 a1 x2 t2 b2 =>
      constructor
      · intro h
        simp [go] at h
      · rintro ⟨d, h1, h2⟩
        rw [toDB_app_eq] at h1
        rw [toDB_pi_eq] at h2
        obtain ⟨df, da, _, _, h1c⟩ := h1
        obtain ⟨dt, db2, _, _, h2c⟩ := h2
        rw [h1c] at h2c
        simp at h2c
    case app.recordType f1 a1 kts2 =>
      constructor
      · intro h
        simp [go] at h
      · rintro ⟨d, h1, h2⟩
        rw [toDB_app_eq] at h1
        rw [toDB_recordType_eq] at h2
        obtain ⟨df, da, _, _, h1c⟩ := h1
        obtain ⟨ds, _, h2c⟩ := h2
        rw [h1c] at h2c
        simp at h2c
    case app.unionType f1 a1 kts2 =>
      constructor
      · intro h
        simp [go] at h
      · rintro ⟨d, h1, h2⟩
        rw [toDB_app_eq] at h1
        rw [toDB_unionType_eq] at h2
        obtain ⟨df, da, _, _, h1c⟩ := h1
        obtain ⟨ds, _, h2c⟩ := h2
        rw [h1c] at h2c
        simp at h2c
    case recordType.pi kts1 x2 t2 b2 =>
      constructor
      · intro h
        simp [go] at h
      · rintro ⟨d, h1, h2⟩
        rw [toDB_recordType_eq] at h1
        rw [toDB_pi_eq] at h2
        obtain ⟨ds, _, h1c⟩ := h1
        obtain ⟨dt, db2, _, _, h2c⟩ := h2
        rw [h1c] at h2c
        simp at h2c
    case recordType.app kts1 f2 a2 =>
      constructor
      · intro h
        simp [go] at h
      · rintro ⟨d, h1, h2⟩
        rw [toDB_recordType_eq] at h1
        rw [toDB_app_eq] at h2
        obtain ⟨ds, _, h1c⟩ := h1
        obtain ⟨df, da, _, _, h2c⟩ := h2
        rw [h1c] at h2c
        simp at h2c
    case recordType.unionType kts1 kts2 =>
      constructor
      · intro h
        simp [go] at h
      · rintro ⟨d, h1, h2⟩
        rw [toDB_recordType_eq] at h1
        rw [toDB_unionType_eq] at h2
        obtain ⟨ds, _, h1c⟩ := h1
        obtain ⟨ds2, _, h2c⟩ := h2
        rw [h1c] at h2c
        simp at h2c
    case unionType.pi kts1 x2 t2 b2 =>
      constructor
      · intro h
        simp [go] at h
      · rintro ⟨d, h1, h2⟩
        rw [toDB_unionType_eq] at h1
        rw [toDB_pi_eq] at h2
        obtain ⟨ds, _, h1c⟩ := h1
        obtain ⟨dt, db2, _, _, h2c⟩ := h2
        rw [h1c] at h2c
        simp at h2c
    case unionType.app kts1 f2 a2 =>
      constructor
      · intro h
        simp [go] at h
      · rintro ⟨d, h1, h2⟩
        rw [toDB_unionType_eq] at h1
        rw [toDB_app_eq] at h2
        obtain ⟨ds, _, h1c⟩ := h1
        obtain ⟨df, da, _, _, h2c⟩ := h2
        rw [h1c] at h2c
        simp at h2c
    case unionType.recordType kts1 kts2 =>
      constructor
      · intro h
        simp [go] at h
      · rintro ⟨d, h1, h2⟩
        rw [toDB_unionType_eq] at h1
        rw [toDB_recordType_eq] at h2
        obtain ⟨ds, _, h1c⟩ := h1
        obtain ⟨ds2, _, h2c⟩ := h2
        rw [h1c] at h2c
        simp at h2c
    case pi.pi x1 t1 b1 x2 t2 b2 =>
      have ht : esize t1 ≤ N := by simp [esize] at ha; omega
      have hb : esize b1 ≤ N := by simp [esize] at ha; omega
      simp only [go]
      rw [and_then_eq_some_true, IH t1 ht t2 ctx]
      have ihb := IH b1 hb b2 (ctx ++ [(x1, x2)])
      simp only [List.map_append, List.map_cons, List.map_nil] at ihb
      rw [ihb]
      constructor
      · rintro ⟨⟨dt, h1, h2⟩, ⟨db2, h3, h4⟩⟩
        exact ⟨.pi dt db2,
          (toDB_pi_eq _ _ _ _ _).mpr ⟨dt, db2, h1, h3, rfl⟩,
          (toDB_pi_eq _ _ _ _ _).mpr ⟨dt, db2, h2, h4, rfl⟩⟩
      · rintro ⟨d, h1, h2⟩
        rw [toDB_pi_eq] at h1 h2
        obtain ⟨dt, db2, h1a, h1b, h1c⟩ := h1
        obtain ⟨dt2, db3, h2a, h2b, h2c⟩ := h2
        rw [h1c] at h2c
        simp only [DB.pi.injEq] at h2c
        obtain ⟨hdt, hdb⟩ := h2c
        subst hdt
        subst hdb
        exact ⟨⟨dt, h1a, h2a⟩, ⟨db2, h1b, h2b⟩⟩
    case app.app f1 a1 f2 a2 =>
      have hf : esize f1 ≤ N := by simp [esize] at ha; omega
      have ha2 : esize a1 ≤ N := by simp [esize] at ha; omega
      simp only [go]
      rw [and_then_eq_some_true, IH f1 hf f2 ctx, IH a1 ha2 a2 ctx]
      constructor
      · rintro ⟨⟨df, h1, h2⟩, ⟨da, h3, h4⟩⟩
        exact ⟨.app df da,
          (toDB_app_eq _ _ _ _).mpr ⟨df, da, h1, h3, rfl⟩,
          (toDB_app_eq _ _ _ _).mpr ⟨df, da, h2, h4, rfl⟩⟩
      · rintro ⟨d, h1, h2⟩
        rw [toDB_app_eq] at h1 h2
        obtain ⟨df, da, h1a, h1b, h1c⟩ := h1
        obtain ⟨df2, da2, h2a, h2b, h2c⟩ := h2
        rw [h1c] at h2c
        simp only [DB.app.injEq] at h2c
        obtain ⟨hdf, hda⟩ := h2c
        subst hdf
        subst hda
        exact ⟨⟨df, h1a, h2a⟩, ⟨da, h1b, h2b⟩⟩
    case recordType.recordType kts1 kts2 =>
      have hsz : esizeK kts1 ≤ N := by simp [esize] at ha; omega
      simp only [go]
      by_cases hlen : kts1.length = kts2.length
      · rw [if_pos hlen, go_kts_toDB_aux N IH kts1 hsz kts2 ctx hlen]
        constructor
        · rintro ⟨ds, h1, h2⟩
          exact ⟨.recordType ds,
            (toDB_recordType_eq _ _ _).mpr ⟨ds, h1, rfl⟩,
            (toDB_recordType_eq _ _ _).mpr ⟨ds, h2, rfl⟩⟩
        · rintro ⟨d, h1, h2⟩
          rw [toDB_recordType_eq] at h1 h2
          obtain ⟨ds, h1a, h1b⟩ := h1
          obtain ⟨ds2, h2a, h2b⟩ := h2
          rw [h1b] at h2b
          simp only [DB.recordType.injEq] at h2b
          subst h2b
          exact ⟨ds, h1a, h2a⟩
      · rw [if_neg hlen]
        constructor
        · intro h
          simp at h
        · rintro ⟨d, h1, h2⟩
          rw [toDB_recordType_eq] at h1 h2
          obtain ⟨ds, h1a, h1b⟩ := h1
          obtain ⟨ds2, h2a, h2b⟩ := h2
          rw [h1b] at h2b
          simp only [DB.recordType.injEq] at h2b
          subst h2b
          exact (hlen ((toDB_kts_length _ _ _ h1a).symm.trans
            (toDB_kts_length _ _ _ h2a))).elim
    case unionType.unionType kts1 kts2 =>
      have hsz : esizeU kts1 ≤ N := by simp [esize] at ha; omega
      simp only [go]
      by_cases hlen : kts1.length = kts2.length
      · rw [if_pos hlen, go_opt_kts_toDB_aux N IH kts1 hsz kts2 ctx hlen]
        constructor
        · rintro ⟨ds, h1, h2⟩
          exact ⟨.unionType ds,
            (toDB_unionType_eq _ _ _).mpr ⟨ds, h1, rfl⟩,
            (toDB_unionType_eq _ _ _).mpr ⟨ds, h2, rfl⟩⟩
        · rintro ⟨d, h1, h2⟩
          rw [toDB_unionType_eq] at h1 h2
          obtain ⟨ds, h1a, h1b⟩ := h1
          obtain ⟨ds2, h2a, h2b⟩ := h2
          rw [h1b] at h2b
          simp only [DB.unionType.injEq] at h2b
          subst h2b
          exact ⟨ds, h1a, h2a⟩
      · rw [if_neg hlen]
        constructor
        · intro h
          simp at h
        · rintro ⟨d, h1, h2⟩
          rw [toDB_unionType_eq] at h1 h2
          obtain ⟨ds, h1a, h1b⟩ := h1
          obtain ⟨ds2, h2a, h2b⟩ := h2
          rw [h1b] at h2b
          simp only [DB.unionType.injEq] at h2b
          subst h2b
          exact (hlen ((toDB_opt_kts_length _ _ _ h1a).symm.trans
            (toDB_opt_kts_length _ _ _ h2a))).elim


/-- The master correspondence without a size bound: `go` answers `true`
exactly when the two sides have the same canonical form. -/
theorem go_toDB (a b : Expr) (ctx : List (Label × Label)) :
    go ctx a b = some true ↔
      ∃ d, toDB (ctx.map Prod.fst) a = some d ∧ toDB (ctx.map Prod.snd) b = some d :=
  go_toDB_aux (esize a) a le_rfl b ctx

/-- Rendering of a `go` verdict as the `prop_equal` outcome: a panic
stays a panic, a boolean is returned. -/
def of_go : Option Bool → TcR Bool
  | some r => .ok r
  | none => .panicked

theorem prop_equal_expr (g : Nat) (a b : Expr) (ta tb : Option Ty) :
    prop_equal (g + 2) (.mk (.expr (.mk a ta))) (.mk (.expr (.mk b tb))) =
      of_go (go [] a b) := rfl

/-- The identity function on `Bool`, `λ(x : Bool) → x`: a normal-form
term containing a lambda. -/
def lam_id_bool : Expr :=
  .lam "x" (.builtin .bool) (.var ⟨"x", 0⟩)

/-- C2 counterexample: `prop_equal` is not reflexive on normal forms.
The normal-form term `λ(x : Bool) → x` (its own normal form, second
conjunct) compares unequal to itself, because `go` has no `Lam` arm and
the `(_, _) => false` catch-all fires. -/
theorem C2_counterexample :
    prop_equal 2 (.mk (.expr (.mk lam_id_bool none)))
        (.mk (.expr (.mk lam_id_bool none))) = .ok false ∧
      normalize 8 lam_id_bool = .ok lam_id_bool :=
  ⟨rfl, rfl⟩

/-- C2 (amended): on `Type` internals carrying normal-form terms,
`prop_equal` is computed by `go` on an empty binder stack (first
conjunct); `go` is reflexive exactly on the fragment of terms built from
`Const`, `Builtin`, `Var`, `Pi`, `App`, `RecordType` and `UnionType`
(the terms with a canonical form, second conjunct), and on that fragment
it is symmetric and transitive (third and fourth conjuncts); two terms
are α-equivalent precisely when their canonical de Bruijn forms under
`match_vars`'s scan order exist and coincide (fifth conjunct) — which is
the sense in which consistent binder renaming preserves equivalence.
Terms containing `Lam` or `Let` are never `prop_equal`, not even to
themselves, and only `Pi` pushes a binder pair. -/
theorem C2_alpha_equivalence_amended :
    (∀ (g : Nat) (a b : Expr) (ta tb : Option Ty),
        prop_equal (g + 2) (.mk (.expr (.mk a ta))) (.mk (.expr (.mk b tb))) =
          of_go (go [] a b)) ∧
    (∀ (a : Expr) (d : DB), toDB [] a = some d → go [] a a = some true) ∧
    (∀ (a b : Expr), go [] a b = some true → go [] b a = some true) ∧
    (∀ (a b c : Expr), go [] a b = some true → go [] b c = some true →
        go [] a c = some true) ∧
    (∀ (a b : Expr), go [] a b = some true ↔
        ∃ d, toDB [] a = some d ∧ toDB [] b = some d) := by
  refine ⟨fun g a b ta tb => prop_equal_expr g a b ta tb, ?_, ?_, ?_, ?_⟩
  · intro a d h
    exact (go_toDB a a []).mpr ⟨d, h, h⟩
  · intro a b h
    obtain ⟨d, h1, h2⟩ := (go_toDB a b []).mp h
    exact (go_toDB b a []).mpr ⟨d, h2, h1⟩
  · intro a b c h1 h2
    obtain ⟨d, ha, hb⟩ := (go_toDB a b []).mp h1
    obtain ⟨d2, hb2, hc⟩ := (go_toDB b c []).mp h2
    have hd : d = d2 := Option.some.inj (hb.symm.trans hb2)
    exact (go_toDB a c []).mpr ⟨d, ha, hd ▸ hc⟩
  · intro a b
    exact go_toDB a b []

/-- C2 witness: transitivity applied at three α-equivalent concrete
polymorphic identity types with distinct binder names. -/
theorem C2_witness :
    go [] (.pi "x" (.const .type) (.var ⟨"x", 0⟩))
      (.pi "z" (.const .type) (.var ⟨"z", 0⟩)) = some true :=
  C2_alpha_equivalence_amended.2.2.2.1
    (.pi "x" (.const .type) (.var ⟨"x", 0⟩))
    (.pi "y" (.const .type) (.var ⟨"y", 0⟩))
    (.pi "z" (.const .type) (.var ⟨"z", 0⟩)) rfl rfl

/-- C4 counterexample: the decrementing procedure of `match_vars` is not
total.  Comparing `x@0` with `y@0` under the stack entry `("x", "z")`
matches the left label with a zero left counter while the pair is not a
both-bound match, so the `usize` decrement underflows (a panic). -/
theorem C4_counterexample :
    match_vars ⟨"x", 0⟩ ⟨"y", 0⟩ [("x", "z")] = none := rfl

/-- C4 (amended): `match_vars` returns `true` exactly when the two scans
coincide — both variables bound at the same relative stack position, or
both free with equal final labels and counters after decrementing once
per matching entry.  The decrementing procedure is, however, not total:
it underflows (panics) whenever one side alone reaches a zero counter on
an entry matching its label. -/
theorem C4_match_vars_amended :
    ∀ (vl vr : V) (l : List (Label × Label)),
      match_vars vl vr l = some true ↔
        v_scan vl.x vl.n (l.map Prod.fst) = v_scan vr.x vr.n (l.map Prod.snd) := by
  intro vl vr l
  obtain ⟨x1, n1⟩ := vl
  obtain ⟨x2, n2⟩ := vr
  exact match_vars_scan l x1 x2 n1 n2

/-- Whether an outcome is a successful `Ok`. -/
def TcR.is_ok : TcR α → Bool
  | .ok _ => true
  | _ => false

/-- The universe constant recorded as the type of a typechecked term,
when the outcome is `Ok` and the type is a constant. -/
def typed_ty_const : TcR Typed → Option Const
  | .ok t =>
    match t.ty? with
    | some ty =>
      match ty.internal with
      | .const c => some c
      | _ => none
    | none => none
  | _ => none

/-- Whether an outcome is the `InvalidInputType` error. -/
def is_err_invalid_input_type : TcR Typed → Bool
  | .err e =>
    match e.message with
    | .invalidInputType _ => true
    | _ => false
  | _ => false

/-- A closed term whose typechecking panics: checking the application
`h g` compares the type of `g`, `∀(z : Type) → x`, against the domain
`∀(x : Type) → x`; under the pushed binder pair `("z", "x")` the right
scan of `match_vars` decrements its zero counter (`usize` underflow). -/
def c1_panic_term : Expr :=
  .lam "x" (.const .type)
    (.lam "h" (.pi "_" (.pi "x" (.const .type) (.var ⟨"x", 0⟩)) (.builtin .bool))
      (.lam "g" (.pi "z" (.const .type) (.var ⟨"x", 0⟩))
        (.app (.var ⟨"h", 0⟩) (.var ⟨"g", 0⟩))))

/-- C1 counterexample: a panic (a `usize` underflow inside `match_vars`)
is reachable from the closed-term typechecking entry point. -/
theorem C1_counterexample : type_of 60 c1_panic_term = .panicked := rfl

/-- C1 (amended): typechecking a `Builtin` term yields an `Ok` result
for every builtin in the modelled enumeration — the wildcard `panic!`
arm of `type_of_builtin` is not reachable from it — but the typechecking
entry points can panic on other closed terms, through the counter
underflow of `match_vars` reached from the `App` rule's `prop_equal`. -/
theorem C1_entry_points_amended :
    (∀ b : Builtin, (type_of 60 (.builtin b)).is_ok = true) ∧
      type_of 60 c1_panic_term = TcR.panicked := by
  refine ⟨?_, rfl⟩
  intro b
  cases b <;> rfl

/-- A context with one entry that mentions the label `x` free. -/
def c3_ctx : TcCtx :=
  [("y", .type ⟨"y", 0⟩ (.mk (.expr (.mk (.var ⟨"x", 0⟩) none))))]

/-- A value to be inserted for the label `x`. -/
def c3_val : Normalized := .mk (.boolLit true) none

/-- What `insert_value` would be if it shifted the pre-existing entries
the way `insert_type` does.  This definition follows the words of the
specification clause, for comparison against the source's
`insert_value`. -/
def insert_value_like_insert_type (fuel : Nat) (ctx : TcCtx) (x : Label)
    (t : Normalized) : TcR TcCtx := do
  let mapped ← ctx_map_shift fuel ctx x
  let t2 ← norm_shift0 fuel 1 x t
  pure ((x, .value t2) :: mapped)

/-- Observation of the de Bruijn index stored inside the second entry of
a returned context. -/
def c3_probe : TcR TcCtx → Option Nat
  | .ok (_ :: (_, .type _ (.mk (.expr (.mk (.var v) _)))) :: _) => some v.n
  | _ => none

/-- C3 counterexample: on a context whose entry mentions `x` free,
`insert_value` differs from the `insert_type`-like behaviour the claim
describes — the pre-existing entry keeps `x@0` instead of being shifted
to `x@1`. -/
theorem C3_counterexample :
    insert_value 10 c3_ctx "x" c3_val ≠
      insert_value_like_insert_type 10 c3_ctx "x" c3_val := by
  intro h
  have h2 := congrArg c3_probe h
  rw [show c3_probe (insert_value 10 c3_ctx "x" c3_val) = some 0 from rfl] at h2
  rw [show c3_probe (insert_value_like_insert_type 10 c3_ctx "x" c3_val) = some 1 from rfl] at h2
  simp at h2

/-- C3 (amended): `insert_value(x, v)` pushes a value binding whose
stored value is shifted by +1 on `x`, but — unlike `insert_type` — it
inserts the pre-existing entries unchanged, without shifting them. -/
theorem C3_insert_value_amended :
    ∀ (fuel : Nat) (ctx : TcCtx) (x : Label) (v v2 : Normalized),
      norm_shift0 fuel 1 x v = .ok v2 →
      insert_value fuel ctx x v = .ok ((x, .value v2) :: ctx) := by
  intro fuel ctx x v v2 h
  unfold insert_value
  rw [h]
  rfl

/-- C3 witness: the amended behaviour at a concrete context and value. -/
theorem C3_witness :
    norm_shift0 5 1 "x" c3_val = .ok c3_val ∧
      insert_value 5 c3_ctx "x" c3_val = .ok (("x", .value c3_val) :: c3_ctx) :=
  ⟨rfl, C3_insert_value_amended 5 c3_ctx "x" c3_val c3_val rfl⟩

/-- C5: the universe-formation table of `function_check`, exactly as the
claim states it, together with the two end-to-end consequences:
`∀(x : Kind) → x` typechecks to the constant `Sort`, and
`∀(x : Sort) → x` fails with `InvalidInputType`. -/
theorem C5_function_check :
    (∀ kA kB : Const,
      (function_check kA kB = some .type ↔ kB = .type) ∧
      (function_check kA kB = some .kind ↔ kA = .kind ∧ kB = .kind) ∧
      (function_check kA kB = some .sort ↔
        kA = .sort ∧ (kB = .kind ∨ kB = .sort)) ∧
      (function_check kA kB = none ↔
        kB ≠ .type ∧ ¬(kA = .kind ∧ kB = .kind) ∧
          ¬(kA = .sort ∧ (kB = .kind ∨ kB = .sort)))) ∧
    typed_ty_const (type_of 40 (.pi "x" (.const .kind) (.var ⟨"x", 0⟩))) = some .sort ∧
    is_err_invalid_input_type (type_of 40 (.pi "x" (.const .sort) (.var ⟨"x", 0⟩))) = true := by
  refine ⟨?_, rfl, rfl⟩
  intro kA kB
  cases kA <;> cases kB <;> decide

theorem tcr_bind_ok (a : α) (f : α → TcR β) : TcR.bind (.ok a) f = f a := rfl

theorem tcr_bind_err (er : TypeError) (f : α → TcR β) :
    TcR.bind (.err er) f = .err er := rfl

theorem type_of_eq (g : Nat) (e : Expr) :
    type_of (g + 1) e =
      TcR.bind (type_with g [] e) (fun tt =>
        TcR.bind (tot_into_typed g tt) (fun t =>
          TcR.bind (typed_get_type t) (fun ty =>
            TcR.bind (into_normalized g ty.internal) (fun _ => TcR.ok t)))) := rfl

/-- C6: typechecking the closed term `Sort` fails with `Untyped` (first
conjunct), and in general `type_of` rejects any term whose inferred type
is the `SuperType` sentinel with that same `Untyped` error, because the
final `as_normalized` check cannot normalise the sentinel (second
conjunct). -/
theorem C6_sort_untyped :
    (type_of 40 (.const .sort) = .err ⟨[], .const .sort, .untyped⟩) ∧
    (∀ (fuel : Nat) (e : Expr) (tt : TypedOrType) (t : Typed),
      type_with fuel [] e = .ok tt →
      tot_into_typed fuel tt = .ok t →
      t.ty? = some (.mk .superType) →
      type_of (fuel + 1) e = .err ⟨[], .const .sort, .untyped⟩) := by
  refine ⟨rfl, ?_⟩
  intro fuel e tt t h1 h2 h3
  cases fuel with
  | zero => simp [type_with] at h1
  | succ g =>
    rw [type_of_eq, h1, tcr_bind_ok, h2, tcr_bind_ok]
    have h4 : typed_get_type t = .ok (.mk .superType) := by
      simp [typed_get_type, h3]
    rw [h4, tcr_bind_ok]
    rw [show into_normalized (g + 1) (Ty.mk .superType).internal =
      .err ⟨[], .const .sort, .untyped⟩ from rfl]
    rfl

/-- C6 witness: the general rejection applied at the concrete term
`Sort`, whose typechecking in the empty context yields the `SuperType`
sentinel. -/
theorem C6_witness :
    type_with 20 [] (.const .sort) =
        .ok (.typed ⟨.const .sort, some (.mk .superType), []⟩) ∧
      tot_into_typed 20 (.typed ⟨.const .sort, some (.mk .superType), []⟩) =
        .ok ⟨.const .sort, some (.mk .superType), []⟩ ∧
      type_of 21 (.const .sort) = .err ⟨[], .const .sort, .untyped⟩ :=
  ⟨rfl, rfl,
    C6_sort_untyped.2 20 (.const .sort)
      (.typed ⟨.const .sort, some (.mk .superType), []⟩)
      ⟨.const .sort, some (.mk .superType), []⟩ rfl rfl rfl⟩

/-- C7: the checking-mode entry point is the inference entry point
applied to the annotated term — whenever the expected type's embedding
into an expression succeeds, `typecheck_with(e, τ)` returns exactly
`typecheck(Annot(e, embed τ))`. -/
theorem C7_typecheck_with :
    ∀ (fuel : Nat) (e : Expr) (ty : Ty) (n : Normalized),
      into_normalized fuel ty.internal = .ok n →
      typecheck_with fuel e ty = typecheck fuel (.annot e (.embed n)) := by
  intro fuel e ty n h
  simp [typecheck_with, typecheck, h]

/-- C7 witness: the equivalence at a concrete boolean literal checked
against the simple type `Bool`. -/
theorem C7_witness :
    into_normalized 40 (simple_type_from_builtin .bool).internal =
        .ok (.mk (.builtin .bool) (some (.mk (.const .type)))) ∧
      typecheck_with 40 (.boolLit true) (simple_type_from_builtin .bool) =
        typecheck 40 (.annot (.boolLit true)
          (.embed (.mk (.builtin .bool) (some (.mk (.const .type)))))) :=
  ⟨rfl, C7_typecheck_with 40 (.boolLit true) (simple_type_from_builtin .bool)
    (.mk (.builtin .bool) (some (.mk (.const .type)))) rfl⟩

/-- C9: when lookup lands on a value binding whose stored term carries
no type, the `Untyped` error produced by `get_type` is converted to
`None` by the `?` operator, so the `Var` rule reports
`UnboundVariable` instead of `Untyped`. -/
theorem C9_value_binding_untyped :
    ∀ (ctx : TcCtx) (x : Label) (n : Nat) (e : Expr) (fuel : Nat) (orig : Expr),
      ctx_lookup ctx x n = some (.value (.mk e none)) →
      tc_lookup ctx ⟨x, n⟩ = none ∧
        type_last_layer (fuel + 1) ctx (.var ⟨x, n⟩) orig =
          .err ⟨ctx, orig, .unboundVariable ⟨x, n⟩⟩ := by
  intro ctx x n e fuel orig h
  have hl : tc_lookup ctx ⟨x, n⟩ = none := by
    simp [tc_lookup, h, norm_get_type, Normalized.ty?]
  refine ⟨hl, ?_⟩
  rw [show type_last_layer (fuel + 1) ctx (.var ⟨x, n⟩) orig =
    (match tc_lookup ctx ⟨x, n⟩ with
     | some t => TcR.ok (Ret.retType t)
     | none => TcR.err ⟨ctx, orig, .unboundVariable ⟨x, n⟩⟩) from rfl, hl]

/-- A context binding `x` to a value that lost its type. -/
def c9_ctx : TcCtx := [("x", .value (.mk (.boolLit true) none))]

/-- C9 witness: the conversion at a concrete context. -/
theorem C9_witness :
    tc_lookup c9_ctx ⟨"x", 0⟩ = none ∧
      type_last_layer 3 c9_ctx (.var ⟨"x", 0⟩) (.var ⟨"x", 0⟩) =
        .err ⟨c9_ctx, .var ⟨"x", 0⟩, .unboundVariable ⟨"x", 0⟩⟩ :=
  C9_value_binding_untyped c9_ctx "x" 0 (.boolLit true) 2 (.var ⟨"x", 0⟩) rfl

/-- C8: a label prints surrounded by backticks exactly when it is
empty, reserved (a keyword or a builtin name), or contains a character
that is not ASCII-alphanumeric or underscore; every other label prints
verbatim. -/
theorem C8_fmt_label :
    ∀ s : String,
      fmt_label s = (if spec_needs_backticks s then "`" ++ s ++ "`" else s) := by
  intro s
  by_cases he : s.isEmpty
  · have hs : s = "" := by
      cases s with
      | mk data =>
        cases data with
        | nil => rfl
        | cons c rest =>
          exfalso
          simp [String.isEmpty, String.endPos, String.utf8ByteSize,
            String.Pos.ext_iff] at he
          have := Char.utf8Size_pos c
          omega
    subst hs
    rfl
  · by_cases hr : is_reserved s
    · simp [fmt_label, spec_needs_backticks, he, hr]
    · by_cases hall : s.all label_simple_char
      · simp [fmt_label, spec_needs_backticks, he, hr, hall]
      · simp [fmt_label, spec_needs_backticks, he, hr, hall]

/-- C10: the union of two spans is a parsed span covering both ranges
exactly when both arguments are parsed spans over the pointer-identical
input (first conjunct), and it is the wildcard-arm panic in every other
combination — any desugaring, decoded or artificial span, or parsed
spans over different inputs (second conjunct). -/
theorem C10_span_union :
    ∀ a b : Span,
      (∀ r, Span.union a b = some r ↔
        ∃ x y, a = .parsed x ∧ b = .parsed y ∧ x.input = y.input ∧
          r = .parsed ⟨x.input, min x.start y.start, max x.stop y.stop⟩) ∧
      (Span.union a b = none ↔
        ∀ x y, a = .parsed x → b = .parsed y → x.input ≠ y.input) := by
  intro a b
  cases a with
  | parsed x =>
    cases b with
    | parsed y =>
      constructor
      · intro r
        by_cases hin : x.input = y.input
        · simp [Span.union, hin, eq_comm]
        · simp [Span.union, hin]
      · by_cases hin : x.input = y.input
        · simp [Span.union, hin]
        · simp [Span.union, hin]
    | duplicateRecordFieldsSugar => simp [Span.union]
    | dottedFieldSugar => simp [Span.union]
    | decoded => simp [Span.union]
    | artificial => simp [Span.union]
  | duplicateRecordFieldsSugar => cases b <;> simp [Span.union]
  | dottedFieldSugar => cases b <;> simp [Span.union]
  | decoded => cases b <;> simp [Span.union]
  | artificial => cases b <;> simp [Span.union]

end Dhall
